import Mathlib

/-!
# Verification of the edvan-dbf-commander core

A shallow embedding, in Lean 4, of the data-manipulation core of the
edvan-dbf-commander repository, together with theorems settling the frozen
claims about its specification.

The embedded fragments are:

* the pagination arithmetic of `BaseDataTab.update_data_display` /
  `update_pagination_info` (src/edvan_dbf_commander/tabs/base_data_tab.py);
* the batch row deletion of `DBFDataTab.delete_selected`
  (src/edvan_dbf_commander/tabs/dbf_data_tab.py);
* the SQL-query, clear-filter and header-click-sort handlers of
  `BaseDataTab` (src/edvan_dbf_commander/tabs/base_data_tab.py);
* the save path of `DBFDataTab.save_changes` together with
  `BaseDataTab.backup_file`;
* the find/replace state machine of `FindReplaceDialog`
  (src/edvan_dbf_commander/dialogs/find_replace_dialog.py);
* the byte-level encoding converter `_convert_dbf_encoding` /
  `_convert_encoding` (src/edvan_dbf_commander/utils/encoding.py), including
  executable models of the cp1252, cp437 and UTF-8 codecs it parameterises
  over.

Bytes are modelled as `Nat` (always < 256 where produced), byte strings and
decoded text as `List Nat` (code points) or `List Char`, Python dataframes
as lists of rows, and fallible operations as `Option`.  The file is laid out
as definitions first, then theorems.
-/

namespace DbfCommander

/-! ## Definitions

### Pagination (claim C8)

Embedding of `BaseDataTab.update_data_display` (base_data_tab.py lines
148-155) and `update_pagination_info` (lines 159-164).  The source computes
`start_idx = current_page * rows_per_page`,
`end_idx = min(start_idx + rows_per_page, len(display_df))` and displays the
rows `range(start_idx, end_idx)`; the page count is
`max(1, (total + rows_per_page - 1) // rows_per_page)`. -/

/-- The slice of rows shown for page `page` with page size `rpp`:
the rows with indices in `[page*rpp, min(page*rpp + rpp, view.length))`,
exactly as `update_data_display` computes them. -/
def pageSlice {α : Type*} (view : List α) (page rpp : Nat) : List α :=
  let start := page * rpp
  let stop := min (start + rpp) view.length
  (List.range' start (stop - start)).filterMap (fun i => view[i]?)

/-- Total page count as computed by `update_pagination_info`:
`max(1, (total + rows_per_page - 1) // rows_per_page)`. -/
def totalPages (total rpp : Nat) : Nat :=
  max 1 ((total + rpp - 1) / rpp)

/-! ### Batch row deletion (claim C6)

Embedding of `DBFDataTab.delete_selected` (dbf_data_tab.py lines 121-147).
The source first collects, for every selected display row, the index
`tree.index(item) + current_page * rows_per_page` against the current
(pre-deletion) dataframe, and only then performs a single
`df.drop(indices_to_delete)`; after `reset_index(drop=True)` the row labels
are exactly the positions `0..n-1`, so the drop keeps, in order, the rows
whose original position is not in the collected list. -/

/-- `df.drop(labels).reset_index(drop=True)` for a dataframe whose index is
`0..n-1`: keep, in order, the rows whose position is not in `idxs`. -/
def dropRows {α : Type*} (rows : List α) (idxs : List Nat) : List α :=
  (rows.enum.filter (fun p => decide (p.1 ∉ idxs))).map Prod.snd

/-- `DBFDataTab.delete_selected`: the deletion indices are all computed
against the original table (tree position plus page offset), then dropped in
one batch. -/
def deleteSelected {α : Type*} (df : List α) (sel : List Nat)
    (page rpp : Nat) : List α :=
  dropRows df (sel.map (fun i => i + page * rpp))

/-- Modelled from the spec: delete by a stable snapshot of indices taken
before any deletion — keep exactly the rows whose index in the *original*
table is outside the deletion set. -/
def snapshotDelete {α : Type*} (rows : List α) (idxs : List Nat) : List α :=
  (List.range rows.length).filterMap
    (fun i => if i ∈ idxs then none else rows[i]?)

/-! ### Tab state, query execution and sorting (claims C5, C7)

Embedding of the mutable state of `BaseDataTab` (`df`, `filtered_df`,
`current_page`, `sort_column`, `sort_ascending`) and of the handlers
`execute_sql` (lines 194-223), `clear_filter` (lines 225-230) and
`on_header_click` (lines 232-260).  Cells are modelled as `Nat`; a column is
identified with its position, which also serves as its name.  The sqlite
backend is an external collaborator: the outcome of
`pd.read_sql_query(query, conn)` is passed in as an `Option` (`some result`
for a successful query, `none` when the backend raised and the `except`
branch runs). -/

/-- A dataframe: a column count and the list of rows. -/
structure PTable where
  ncols : Nat
  rows : List (List Nat)
deriving DecidableEq

/-- The tab-owned state of `BaseDataTab` relevant to querying and sorting. -/
structure TabState where
  df : Option PTable
  filtered_df : Option PTable
  current_page : Nat
  sort_column : Option Nat
  sort_ascending : Bool
deriving DecidableEq

/-- `display_df = self.filtered_df if self.filtered_df is not None else
self.df`. -/
def displayTable (st : TabState) : Option PTable :=
  match st.filtered_df with
  | some f => some f
  | none => st.df

/-- Row comparison used by the sort model: key is the cell of column `c`
(missing cells default to 0), direction by `asc`. -/
def rowLe (c : Nat) (asc : Bool) (r s : List Nat) : Bool :=
  if asc then decide (r.getD c 0 ≤ s.getD c 0) else decide (s.getD c 0 ≤ r.getD c 0)

/-- Ordered insertion used by the executable comparison sort below. -/
def sortInsert (le : List Nat → List Nat → Bool) (x : List Nat) :
    List (List Nat) → List (List Nat)
  | [] => [x]
  | y :: ys => if le x y then x :: y :: ys else y :: sortInsert le x ys

/-- Executable comparison sort of the rows (insertion sort). -/
def sortRows (le : List Nat → List Nat → Bool) :
    List (List Nat) → List (List Nat)
  | [] => []
  | x :: xs => sortInsert le x (sortRows le xs)

/-- Model of `df.sort_values(by=col_name, ascending=...).reset_index(drop=True)`
(an external library sort, modelled by an executable comparison sort on the
column key). -/
def sortValues (t : PTable) (c : Nat) (asc : Bool) : PTable :=
  { t with rows := sortRows (rowLe c asc) t.rows }

/-- `BaseDataTab.on_header_click` after the clicked column `colIdx` has been
resolved: if a display dataframe exists and the column is in range, toggle
the sort direction when the same column is sorted again (else reset to
ascending), sort whichever of `filtered_df`/`df` is active, and refresh the
display.  `current_page` is not touched by this handler. -/
def onHeaderClick (st : TabState) (colIdx : Nat) : TabState :=
  match displayTable st with
  | none => st
  | some ddf =>
    if colIdx < ddf.ncols then
      let colName := colIdx
      let asc := if st.sort_column = some colName then !st.sort_ascending else true
      let st1 := { st with sort_column := some colName, sort_ascending := asc }
      match st.filtered_df with
      | some f => { st1 with filtered_df := some (sortValues f colName asc) }
      | none =>
        match st.df with
        | some d => { st1 with df := some (sortValues d colName asc) }
        | none => st1
    else st

/-- Python `str.strip()`: remove leading and trailing whitespace. -/
def pyStrip (s : List Char) : List Char :=
  ((s.dropWhile Char.isWhitespace).reverse.dropWhile Char.isWhitespace).reverse

/-- `BaseDataTab.execute_sql`: a blank (after strip) query or a missing
dataframe only shows a message; otherwise the query is handed verbatim to
the sqlite backend.  On backend success the result becomes `filtered_df` and
`current_page` is reset to 0; when the backend raises, the `except` branch
leaves the state unchanged.  No validation of the query text (in particular
no check that it references the logical table `data`) happens anywhere. -/
def executeSql (query : List Char) (backendResult : Option PTable)
    (st : TabState) : TabState :=
  if pyStrip query = [] then st
  else
    match st.df with
    | none => st
    | some _ =>
      match backendResult with
      | some result => { st with filtered_df := some result, current_page := 0 }
      | none => st

/-- `BaseDataTab.clear_filter`: discard the filtered view and reset to
page 0. -/
def clearFilter (st : TabState) : TabState :=
  { st with filtered_df := none, current_page := 0 }

/-- Executable substring test, modelling Python's `text in cell`. -/
def containsSeq (needle : List Char) : List Char → Bool
  | [] => needle.isEmpty
  | c :: rest => needle.isPrefixOf (c :: rest) || containsSeq needle rest

/-! ### Save path (claims C3, C4)

Embedding of `DBFDataTab.save_changes` (dbf_data_tab.py lines 149-204) and
`BaseDataTab.backup_file` (base_data_tab.py lines 266-281).  The external
`dbf` library and the file system are modelled abstractly: the target file
holds either its original content (`DbfFile.original`) or the file
re-created by `dbf_lib.Table(self.file_path, field_specs)` with the rows
written so far (`DbfFile.written`).  `backup_file` wraps its `shutil.copy2`
in its own try/except and swallows the failure (it shows an error box and
returns normally), so `save_changes` continues regardless; this is modelled
by `backupStep`.  A write failure while adding records is injected through
`SaveEnv.failAtRow`: the `except` branch of `save_changes` only reports the
error, leaving the partially re-created target file in place. -/

/-- Abstract content of the file at the table's path. -/
inductive DbfFile where
  /-- The file as it was before the save (identified by an abstract tag). -/
  | original (tag : Nat)
  /-- The file re-created from scratch with the derived field specs
  (abstracted as `schema`) and the records written so far. -/
  | written (schema : Nat) (rows : List (List Nat))
deriving DecidableEq

/-- File-system state seen by `save_changes`. -/
structure SaveState where
  target : DbfFile
  backup : Option DbfFile
  modified : Bool
deriving DecidableEq

/-- Failure injection for a save run: whether the backup copy succeeds, and
an optional index of the record whose `write_record` raises. -/
structure SaveEnv where
  backupOk : Bool
  failAtRow : Option Nat
deriving DecidableEq

/-- The record-writing loop of `save_changes`: rows are written one by one;
a failure at row `k` leaves exactly the first `k` rows written and aborts
the loop.  Returns the rows written and whether the loop completed. -/
def writeLoop : List (List Nat) → Option Nat → List (List Nat) × Bool
  | [], _ => ([], true)
  | _ :: _, some 0 => ([], false)
  | r :: rs, some (k + 1) =>
    let p := writeLoop rs (some k)
    (r :: p.1, p.2)
  | r :: rs, none =>
    let p := writeLoop rs none
    (r :: p.1, p.2)

/-- `BaseDataTab.backup_file`: copy the target to the backup on success; on
failure show an error box and return normally — the caller is not informed
and the exception does not propagate. -/
def backupStep (env : SaveEnv) (st : SaveState) : SaveState :=
  if env.backupOk then { st with backup := some st.target } else st

/-- `DBFDataTab.save_changes`: after the read-only and not-modified guards,
run `backup_file` (whose failure is swallowed), read the field specs from
the original file (abstracted as `schema`), re-create the target file in
place via `dbf_lib.Table(self.file_path, ...)`, write every row, and clear
`modified` only if every write succeeded.  There is no temporary file and no
atomic replace: the target is destroyed at re-creation time. -/
def saveChanges (env : SaveEnv) (readOnly : Bool) (rows : List (List Nat))
    (schema : Nat) (st : SaveState) : SaveState :=
  if readOnly then st
  else if !st.modified then st
  else
    let st1 := backupStep env st
    let w := writeLoop rows env.failAtRow
    let st2 := { st1 with target := DbfFile.written schema w.1 }
    if w.2 then { st2 with modified := false } else st2

/-! ### Find/replace (claims C9, C10)

Embedding of `FindReplaceDialog` (find_replace_dialog.py): `_search_data`
(lines 88-116), `find_next` (lines 118-153), `replace_current` (lines
183-232) and `replace_all` (lines 234-292).  Cell values are `List Char`;
the data tab's base dataframe and optional filtered dataframe are lists of
rows of cells, a column being identified by its position.  Python's
`str.lower` is modelled on the ASCII range by `Char.toLower`;
`str.replace(find, repl)` and
`re.sub(re.escape(find), repl, cell, flags=re.IGNORECASE)` are modelled by
`pyReplace` / `pyReplaceCI`: left-to-right, non-overlapping replacement of
every occurrence, case-insensitively for the latter. -/

/-- Messages surfaced by the dialog (status label / message boxes). -/
inductive FRMsg where
  | askText
  | noMatches
  | found (pos total rowIdx colIdx : Nat)
  | oneReplaced (remaining : Nat)
  | allConsumed
  | findFirst
  | readOnlyErr
  | allReplaced (count : Nat)
  | cancelled
  | internalErr
deriving DecidableEq

/-- The dialog state: the data tab's tables plus the dialog's match list,
cursor (`current_match_index`, -1 before the first match) and the
`_last_search` text. -/
structure FRState where
  table : List (List (List Char))
  filtered : Option (List (List (List Char)))
  readOnly : Bool
  dirty : Bool
  matchList : List (Nat × Nat × List Char)
  cursor : Int
  lastSearch : Option (List Char)
deriving DecidableEq

/-- `df = self.data_tab.filtered_df if ... is not None else self.data_tab.df`
as used by `_search_data`. -/
def activeData (st : FRState) : List (List (List Char)) :=
  match st.filtered with
  | some f => f
  | none => st.table

/-- Python `str.lower`, on the ASCII range. -/
def lowerStr (s : List Char) : List Char := s.map Char.toLower

/-- `FindReplaceDialog._search_data`: scan every cell in row-major then
column-major order; compare case-folded iff not case-sensitive, by substring
containment iff partial-match else by equality; collect
`(row_idx, col, cell_value)` in discovery order. -/
def searchData (ft : List Char) (cs pm : Bool)
    (df : List (List (List Char))) : List (Nat × Nat × List Char) :=
  if ft = [] then []
  else
    let searchText := if cs then ft else lowerStr ft
    (df.enum.map (fun rr =>
      rr.2.enum.filterMap (fun cc =>
        let cmp := if cs then cc.2 else lowerStr cc.2
        if (if pm then containsSeq searchText cmp else searchText == cmp)
        then some (rr.1, cc.1, cc.2) else none))).flatten

/-- `FindReplaceDialog.find_next`: re-run the search when the match list is
empty or the find text changed (resetting the cursor to -1), then advance
the cursor modulo the match count and report the match; report `noMatches`
when the (fresh) match list is empty. -/
def findNext (ft : List Char) (cs pm : Bool) (st : FRState) :
    FRState × FRMsg :=
  if ft = [] then (st, .askText)
  else
    let fresh := st.matchList.isEmpty || !(st.lastSearch == some ft)
    let ms := if fresh then searchData ft cs pm (activeData st) else st.matchList
    let cur := if fresh then (-1 : Int) else st.cursor
    let st1 := { st with matchList := ms, cursor := cur, lastSearch := some ft }
    if ms.isEmpty then (st1, .noMatches)
    else
      let cur2 := (cur + 1) % (ms.length : Int)
      match ms[cur2.toNat]? with
      | some m => ({ st1 with cursor := cur2 }, .found (cur2.toNat + 1) ms.length m.1 m.2.1)
      | none => (st1, .internalErr)

/-- Pattern match at the head of a string: on success return the remainder
after the pattern, comparing characters with `eqc`. -/
def matchConsume (eqc : Char → Char → Bool) :
    List Char → List Char → Option (List Char)
  | [], s => some s
  | _ :: _, [] => none
  | p :: ps, c :: cs => if eqc c p then matchConsume eqc ps cs else none

/-- Left-to-right, non-overlapping replacement of every occurrence of `pat`
(non-empty) by `rep`, with `fuel` bounding the recursion (`fuel ≥ length`
suffices). -/
def replaceFuel (eqc : Char → Char → Bool) (pat rep : List Char) :
    Nat → List Char → List Char
  | _, [] => []
  | 0, s => s
  | fuel + 1, c :: cs =>
    match matchConsume eqc pat (c :: cs) with
    | some rest => rep ++ replaceFuel eqc pat rep fuel rest
    | none => c :: replaceFuel eqc pat rep fuel cs

/-- Python `s.replace(pat, rep)` (an empty pattern inserts `rep` at every
position, as in Python). -/
def pyReplace (s pat rep : List Char) : List Char :=
  if pat = [] then rep ++ (s.map (fun c => c :: rep)).flatten
  else replaceFuel (fun a b => a == b) pat rep s.length s

/-- `re.sub(re.escape(pat), rep, s, flags=re.IGNORECASE)`: like `pyReplace`
but matching case-insensitively (ASCII case folding). -/
def pyReplaceCI (s pat rep : List Char) : List Char :=
  if pat = [] then rep ++ (s.map (fun c => c :: rep)).flatten
  else replaceFuel (fun a b => a.toLower == b.toLower) pat rep s.length s

/-- `df.at[row_idx, col_name] = value` for an in-range row label: replace the
cell at `(r, c)`; out-of-range indices leave the table unchanged. -/
def updateCell {α : Type*} (tbl : List (List α)) (r c : Nat) (v : α) :
    List (List α) :=
  match tbl[r]? with
  | some row => tbl.set r (row.set c v)
  | none => tbl

/-- `FindReplaceDialog.replace_current`: guarded by an empty match list or a
cursor of -1 (message only, no mutation) and by read-only mode; otherwise
rewrite the current match's cell on the *base* dataframe from the snapshot
value (every occurrence of the find text within that cell), mark the tab
modified, remove the consumed match, and set the cursor to the old index
modulo the shorter length (or -1 when the list became empty). -/
def replaceCurrent (ft rt : List Char) (cs : Bool) (st : FRState) :
    FRState × FRMsg :=
  if st.matchList.isEmpty || st.cursor < 0 then (st, .findFirst)
  else if st.readOnly then (st, .readOnlyErr)
  else
    match st.matchList[st.cursor.toNat]? with
    | none => (st, .internalErr)
    | some m =>
      let newVal := if cs then pyReplace m.2.2 ft rt else pyReplaceCI m.2.2 ft rt
      let table1 := updateCell st.table m.1 m.2.1 newVal
      let ms1 := st.matchList.eraseIdx st.cursor.toNat
      let cur1 := if ms1.isEmpty then (-1 : Int) else st.cursor % (ms1.length : Int)
      ({ st with table := table1, matchList := ms1, cursor := cur1, dirty := true },
       if ms1.isEmpty then .allConsumed else .oneReplaced ms1.length)

/-- `FindReplaceDialog.replace_all`: re-run the search fresh (the fresh list
is stored even when empty), ask for confirmation exposing the match count,
then apply every replacement to the *base* dataframe from the snapshot
values, clear the match list and cursor, and mark the tab modified. -/
def replaceAllOp (ft rt : List Char) (cs pm confirm : Bool) (st : FRState) :
    FRState × FRMsg :=
  if ft = [] then (st, .askText)
  else if st.readOnly then (st, .readOnlyErr)
  else
    let ms := searchData ft cs pm (activeData st)
    if ms.isEmpty then ({ st with matchList := ms }, .noMatches)
    else if !confirm then ({ st with matchList := ms }, .cancelled)
    else
      let table1 := ms.foldl (fun tbl m =>
        updateCell tbl m.1 m.2.1
          (if cs then pyReplace m.2.2 ft rt else pyReplaceCI m.2.2 ft rt)) st.table
      ({ st with table := table1, matchList := [], cursor := -1, dirty := true },
       .allReplaced ms.length)

/-! ### Encoding conversion (claims C1, C2)

Embedding of `_convert_dbf_encoding` (encoding.py lines 134-162) within
`_convert_encoding` (lines 83-131).  The Python codecs `cp1252`, `cp437` and
`utf-8` used by `bytes.decode` / `str.encode` are modelled executably:

* `cp437` and `cp1252` are charmap codecs — decoding maps each byte through
  a fixed table (bytes below 0x80 are ASCII-identity; `cp1252` leaves bytes
  0x81, 0x8D, 0x8F, 0x90 and 0x9D undefined), and encoding inverts the
  table;
* `utf-8` is encoded/decoded by the standard algorithm; strict decoding
  rejects overlong forms, surrogates and code points above 0x10FFFF, exactly
  as Python does.

Strict decoding/encoding return `none` on the first failing position
(`UnicodeDecodeError` / `UnicodeEncodeError`).  The `errors='replace'`
fallbacks substitute U+FFFD for an undecodable byte (resynchronising at the
next byte) and `?` (0x3F) for an unencodable character — per the spec's
words, "a lossy decode substituting a placeholder character for invalid
bytes".

In `_convert_dbf_encoding` only `UnicodeDecodeError` is caught: a clean
strict decode followed by a failing strict encode raises
`UnicodeEncodeError`, which propagates to `_convert_encoding`'s outer
`except` — the conversion then fails and the file is left unchanged
(`convertInPlace` returns the input). -/

/-- The code pages `_convert_encoding` is invoked with for `.dbf` files. -/
inductive Codec where
  | cp1252
  | cp437
  | utf8
deriving DecidableEq

/-- Decoding table of the cp437 codec for bytes 0x80-0xFF (the IBM PC
code page 437 high half, as in Python's `cp437` codec). -/
def cp437hi (b : Nat) : Option Nat :=
  match b with
  | 0x80 => some 0x00C7 | 0x81 => some 0x00FC | 0x82 => some 0x00E9 | 0x83 => some 0x00E2
  | 0x84 => some 0x00E4 | 0x85 => some 0x00E0 | 0x86 => some 0x00E5 | 0x87 => some 0x00E7
  | 0x88 => some 0x00EA | 0x89 => some 0x00EB | 0x8A => some 0x00E8 | 0x8B => some 0x00EF
  | 0x8C => some 0x00EE | 0x8D => some 0x00EC | 0x8E => some 0x00C4 | 0x8F => some 0x00C5
  | 0x90 => some 0x00C9 | 0x91 => some 0x00E6 | 0x92 => some 0x00C6 | 0x93 => some 0x00F4
  | 0x94 => some 0x00F6 | 0x95 => some 0x00F2 | 0x96 => some 0x00FB | 0x97 => some 0x00F9
  | 0x98 => some 0x00FF | 0x99 => some 0x00D6 | 0x9A => some 0x00DC | 0x9B => some 0x00A2
  | 0x9C => some 0x00A3 | 0x9D => some 0x00A5 | 0x9E => some 0x20A7 | 0x9F => some 0x0192
  | 0xA0 => some 0x00E1 | 0xA1 => some 0x00ED | 0xA2 => some 0x00F3 | 0xA3 => some 0x00FA
  | 0xA4 => some 0x00F1 | 0xA5 => some 0x00D1 | 0xA6 => some 0x00AA | 0xA7 => some 0x00BA
  | 0xA8 => some 0x00BF | 0xA9 => some 0x2310 | 0xAA => some 0x00AC | 0xAB => some 0x00BD
  | 0xAC => some 0x00BC | 0xAD => some 0x00A1 | 0xAE => some 0x00AB | 0xAF => some 0x00BB
  | 0xB0 => some 0x2591 | 0xB1 => some 0x2592 | 0xB2 => some 0x2593 | 0xB3 => some 0x2502
  | 0xB4 => some 0x2524 | 0xB5 => some 0x2561 | 0xB6 => some 0x2562 | 0xB7 => some 0x2556
  | 0xB8 => some 0x2555 | 0xB9 => some 0x2563 | 0xBA => some 0x2551 | 0xBB => some 0x2557
  | 0xBC => some 0x255D | 0xBD => some 0x255C | 0xBE => some 0x255B | 0xBF => some 0x2510
  | 0xC0 => some 0x2514 | 0xC1 => some 0x2534 | 0xC2 => some 0x252C | 0xC3 => some 0x251C
  | 0xC4 => some 0x2500 | 0xC5 => some 0x253C | 0xC6 => some 0x255E | 0xC7 => some 0x255F
  | 0xC8 => some 0x255A | 0xC9 => some 0x2554 | 0xCA => some 0x2569 | 0xCB => some 0x2566
  | 0xCC => some 0x2560 | 0xCD => some 0x2550 | 0xCE => some 0x256C | 0xCF => some 0x2567
  | 0xD0 => some 0x2568 | 0xD1 => some 0x2564 | 0xD2 => some 0x2565 | 0xD3 => some 0x2559
  | 0xD4 => some 0x2558 | 0xD5 => some 0x2552 | 0xD6 => some 0x2553 | 0xD7 => some 0x256B
  | 0xD8 => some 0x256A | 0xD9 => some 0x2518 | 0xDA => some 0x250C | 0xDB => some 0x2588
  | 0xDC => some 0x2584 | 0xDD => some 0x258C | 0xDE => some 0x2590 | 0xDF => some 0x2580
  | 0xE0 => some 0x03B1 | 0xE1 => some 0x00DF | 0xE2 => some 0x0393 | 0xE3 => some 0x03C0
  | 0xE4 => some 0x03A3 | 0xE5 => some 0x03C3 | 0xE6 => some 0x00B5 | 0xE7 => some 0x03C4
  | 0xE8 => some 0x03A6 | 0xE9 => some 0x0398 | 0xEA => some 0x03A9 | 0xEB => some 0x03B4
  | 0xEC => some 0x221E | 0xED => some 0x03C6 | 0xEE => some 0x03B5 | 0xEF => some 0x2229
  | 0xF0 => some 0x2261 | 0xF1 => some 0x00B1 | 0xF2 => some 0x2265 | 0xF3 => some 0x2264
  | 0xF4 => some 0x2320 | 0xF5 => some 0x2321 | 0xF6 => some 0x00F7 | 0xF7 => some 0x2248
  | 0xF8 => some 0x00B0 | 0xF9 => some 0x2219 | 0xFA => some 0x00B7 | 0xFB => some 0x221A
  | 0xFC => some 0x207F | 0xFD => some 0x00B2 | 0xFE => some 0x25A0 | 0xFF => some 0x00A0
  | _ => none

/-- Byte-to-code-point decoding of Python's `cp437` codec. -/
def cp437decode (b : Nat) : Option Nat :=
  if b < 0x80 then some b
  else if b < 0x100 then cp437hi b
  else none

/-- Decoding table of the cp1252 codec for bytes 0x80-0x9F (Windows-1252;
0x81, 0x8D, 0x8F, 0x90 and 0x9D are undefined and fail strict decoding).
Bytes 0xA0-0xFF map to themselves. -/
def cp1252hi (b : Nat) : Option Nat :=
  if 0xA0 ≤ b then some b
  else
    match b with
    | 0x80 => some 0x20AC | 0x82 => some 0x201A | 0x83 => some 0x0192
    | 0x84 => some 0x201E | 0x85 => some 0x2026 | 0x86 => some 0x2020
    | 0x87 => some 0x2021 | 0x88 => some 0x02C6 | 0x89 => some 0x2030
    | 0x8A => some 0x0160 | 0x8B => some 0x2039 | 0x8C => some 0x0152
    | 0x8E => some 0x017D | 0x91 => some 0x2018 | 0x92 => some 0x2019
    | 0x93 => some 0x201C | 0x94 => some 0x201D | 0x95 => some 0x2022
    | 0x96 => some 0x2013 | 0x97 => some 0x2014 | 0x98 => some 0x02DC
    | 0x99 => some 0x2122 | 0x9A => some 0x0161 | 0x9B => some 0x203A
    | 0x9C => some 0x0153 | 0x9E => some 0x017E | 0x9F => some 0x0178
    | _ => none

/-- Byte-to-code-point decoding of Python's `cp1252` codec. -/
def cp1252decode (b : Nat) : Option Nat :=
  if b < 0x80 then some b
  else if b < 0x100 then cp1252hi b
  else none

/-- Charmap encoding: the first byte whose decoding is the given code point
(the decoding tables are injective, so this inverts them). -/
def charmapEncode (dec : Nat → Option Nat) (c : Nat) : Option Nat :=
  (List.range 256).find? (fun b => dec b == some c)

/-- Strict charmap decoding of a byte string (`errors='strict'`): fail on
the first undecodable byte. -/
def decodeAll (dec : Nat → Option Nat) : List Nat → Option (List Nat)
  | [] => some []
  | b :: bs =>
    match dec b, decodeAll dec bs with
    | some c, some cs => some (c :: cs)
    | _, _ => none

/-- Charmap decoding with `errors='replace'`: substitute U+FFFD for each
undecodable byte. -/
def decodeAllReplace (dec : Nat → Option Nat) : List Nat → List Nat
  | [] => []
  | b :: bs => ((dec b).getD 0xFFFD) :: decodeAllReplace dec bs

/-- UTF-8 encoding of one code point (Python `str.encode('utf-8')` per
character): 1-4 bytes; surrogates and values above 0x10FFFF fail. -/
def utf8EncodeChar (c : Nat) : Option (List Nat) :=
  if c < 0x80 then some [c]
  else if c < 0x800 then some [0xC0 + c / 64, 0x80 + c % 64]
  else if c < 0x10000 then
    if 0xD800 ≤ c ∧ c ≤ 0xDFFF then none
    else some [0xE0 + c / 4096, 0x80 + (c / 64) % 64, 0x80 + c % 64]
  else if c < 0x110000 then
    some [0xF0 + c / 262144, 0x80 + (c / 4096) % 64, 0x80 + (c / 64) % 64,
      0x80 + c % 64]
  else none

/-- One step of strict UTF-8 decoding: given the first byte and the rest,
produce the decoded code point and the remaining bytes.  Overlong forms,
surrogates (via the 0xE0/0xED/0xF0/0xF4 continuation windows) and values
above 0x10FFFF are rejected, as in Python's strict `utf-8` codec. -/
def utf8DecodeStep (b : Nat) (bs : List Nat) : Option (Nat × List Nat) :=
  if b < 0x80 then some (b, bs)
  else if 0xC2 ≤ b ∧ b ≤ 0xDF then
    match bs with
    | b1 :: bs1 =>
      if 0x80 ≤ b1 ∧ b1 < 0xC0 then
        some ((b - 0xC0) * 64 + (b1 - 0x80), bs1)
      else none
    | [] => none
  else if 0xE0 ≤ b ∧ b ≤ 0xEF then
    match bs with
    | b1 :: b2 :: bs2 =>
      if (b = 0xE0 → 0xA0 ≤ b1) ∧ (b = 0xED → b1 < 0xA0) ∧
          (0x80 ≤ b1 ∧ b1 < 0xC0) ∧ (0x80 ≤ b2 ∧ b2 < 0xC0) then
        some ((b - 0xE0) * 4096 + (b1 - 0x80) * 64 + (b2 - 0x80), bs2)
      else none
    | _ => none
  else if 0xF0 ≤ b ∧ b ≤ 0xF4 then
    match bs with
    | b1 :: b2 :: b3 :: bs3 =>
      if (b = 0xF0 → 0x90 ≤ b1) ∧ (b = 0xF4 → b1 < 0x90) ∧
          (0x80 ≤ b1 ∧ b1 < 0xC0) ∧
          (0x80 ≤ b2 ∧ b2 < 0xC0) ∧ (0x80 ≤ b3 ∧ b3 < 0xC0) then
        some ((b - 0xF0) * 262144 + (b1 - 0x80) * 4096 + (b2 - 0x80) * 64 +
          (b3 - 0x80), bs3)
      else none
    | _ => none
  else none

/-- Strict UTF-8 decoding with a fuel bound (each step consumes at least one
byte, so `fuel = length` suffices). -/
def utf8DecodeGo : Nat → List Nat → Option (List Nat)
  | _, [] => some []
  | 0, _ :: _ => none
  | fuel + 1, b :: bs =>
    match utf8DecodeStep b bs with
    | some (c, rest) =>
      match utf8DecodeGo fuel rest with
      | some cs => some (c :: cs)
      | none => none
    | none => none

/-- Strict UTF-8 decoding of a byte string (Python
`bytes.decode('utf-8')`). -/
def utf8Decode (bs : List Nat) : Option (List Nat) :=
  utf8DecodeGo bs.length bs

/-- UTF-8 decoding with `errors='replace'`: on an undecodable position emit
U+FFFD and resynchronise at the next byte. -/
def utf8DecodeReplaceGo : Nat → List Nat → List Nat
  | _, [] => []
  | 0, rest => rest.map (fun _ => 0xFFFD)
  | fuel + 1, b :: bs =>
    match utf8DecodeStep b bs with
    | some (c, rest) => c :: utf8DecodeReplaceGo fuel rest
    | none => 0xFFFD :: utf8DecodeReplaceGo fuel bs

/-- Per-character encoding of each codec (a charmap byte, or a UTF-8 byte
sequence). -/
def codecEncodeChar : Codec → Nat → Option (List Nat)
  | .cp1252 => fun c => (charmapEncode cp1252decode c).map (fun b => [b])
  | .cp437 => fun c => (charmapEncode cp437decode c).map (fun b => [b])
  | .utf8 => utf8EncodeChar

/-- Strict encoding of a code-point string (`str.encode(enc)`): fail on the
first unencodable character (`UnicodeEncodeError`). -/
def encodeWith (encChar : Nat → Option (List Nat)) :
    List Nat → Option (List Nat)
  | [] => some []
  | c :: cs =>
    match encChar c, encodeWith encChar cs with
    | some bs, some rest => some (bs ++ rest)
    | _, _ => none

/-- Encoding with `errors='replace'`: substitute `?` (0x3F) for each
unencodable character. -/
def encodeReplaceWith (encChar : Nat → Option (List Nat)) :
    List Nat → List Nat
  | [] => []
  | c :: cs => ((encChar c).getD [0x3F]) ++ encodeReplaceWith encChar cs

/-- `bytes.decode(enc)` (strict). -/
def codecDecode : Codec → List Nat → Option (List Nat)
  | .cp1252 => decodeAll cp1252decode
  | .cp437 => decodeAll cp437decode
  | .utf8 => utf8Decode

/-- `bytes.decode(enc, errors='replace')`. -/
def codecDecodeReplace : Codec → List Nat → List Nat
  | .cp1252 => decodeAllReplace cp1252decode
  | .cp437 => decodeAllReplace cp437decode
  | .utf8 => fun bs => utf8DecodeReplaceGo bs.length bs

/-- `str.encode(enc)` (strict). -/
def codecEncode (cd : Codec) : List Nat → Option (List Nat) :=
  encodeWith (codecEncodeChar cd)

/-- `str.encode(enc, errors='replace')`. -/
def codecEncodeReplace (cd : Codec) : List Nat → List Nat :=
  encodeReplaceWith (codecEncodeChar cd)

/-- `int.from_bytes(content[8:10], 'little')`: the DBF header length. -/
def headerLength (content : List Nat) : Nat :=
  content.getD 8 0 + 256 * content.getD 9 0

/-- `_convert_dbf_encoding`: reject files shorter than 32 bytes; split at
the header length from offset 8; strict-decode the data region under the
source code page — on `UnicodeDecodeError` fall back to replace-mode decode
and replace-mode encode; a clean strict decode is strict-encoded to the
target code page, and a failure there (`UnicodeEncodeError`, which the
function does not catch) aborts the conversion.  The result is the
unmodified header concatenated with the transcoded data. -/
def convertDbf (fromC toC : Codec) (content : List Nat) : Option (List Nat) :=
  if content.length < 32 then none
  else
    let hl := headerLength content
    let header := content.take hl
    let data := content.drop hl
    match codecDecode fromC data with
    | some s =>
      match codecEncode toC s with
      | some d => some (header ++ d)
      | none => none
    | none => some (header ++ codecEncodeReplace toC (codecDecodeReplace fromC data))

/-- `_convert_encoding` for a `.dbf` path, at the level of the file's
content: on success the file is overwritten with the converted bytes; on any
exception the outer handler reports the error and the file keeps its old
content. -/
def convertInPlace (fromC toC : Codec) (content : List Nat) : List Nat :=
  (convertDbf fromC toC content).getD content

/-! ## Theorems

### Charmap codec lemmas -/

set_option maxRecDepth 4000 in
/-- A defined charmap decoding is inverted by `charmapEncode` (checked over
the whole cp437 table; this also certifies the table's injectivity, since
`find?` returns the first matching byte). -/
theorem cp437_encode_decode_table : (List.range 256).all (fun b =>
    match cp437decode b with
    | some c => charmapEncode cp437decode c == some b
    | none => true) = true := by decide

set_option maxRecDepth 4000 in
/-- A defined charmap decoding is inverted by `charmapEncode` (checked over
the whole cp1252 table). -/
theorem cp1252_encode_decode_table : (List.range 256).all (fun b =>
    match cp1252decode b with
    | some c => charmapEncode cp1252decode c == some b
    | none => true) = true := by decide

/-- cp437 decodes only bytes below 256. -/
theorem cp437decode_lt (b c : Nat) (h : cp437decode b = some c) : b < 256 := by
  unfold cp437decode at h
  split at h
  · omega
  · split at h
    · omega
    · exact absurd h (by simp)

/-- cp1252 decodes only bytes below 256. -/
theorem cp1252decode_lt (b c : Nat) (h : cp1252decode b = some c) : b < 256 := by
  unfold cp1252decode at h
  split at h
  · omega
  · split at h
    · omega
    · exact absurd h (by simp)

/-- Per-byte inversion for cp437. -/
theorem cp437_encode_of_decode (b c : Nat) (h : cp437decode b = some c) :
    charmapEncode cp437decode c = some b := by
  have hb : b < 256 := cp437decode_lt b c h
  have hall := cp437_encode_decode_table
  rw [List.all_eq_true] at hall
  have := hall b (List.mem_range.mpr hb)
  rw [h] at this
  simpa using this

/-- Per-byte inversion for cp1252. -/
theorem cp1252_encode_of_decode (b c : Nat) (h : cp1252decode b = some c) :
    charmapEncode cp1252decode c = some b := by
  have hb : b < 256 := cp1252decode_lt b c h
  have hall := cp1252_encode_decode_table
  rw [List.all_eq_true] at hall
  have := hall b (List.mem_range.mpr hb)
  rw [h] at this
  simpa using this

/-- `charmapEncode` is sound: the found byte decodes to the character. -/
theorem charmapEncode_decode (dec : Nat → Option Nat) (c b : Nat)
    (h : charmapEncode dec c = some b) : dec b = some c := by
  unfold charmapEncode at h
  have := List.find?_some h
  simpa using this

/-- Lifting the per-byte inversion: a charmap strict decode is undone by the
strict encode. -/
theorem decodeAll_encodeWith (dec : Nat → Option Nat)
    (hinv : ∀ b c, dec b = some c → charmapEncode dec c = some b) :
    ∀ x s : List Nat, decodeAll dec x = some s →
      encodeWith (fun c => (charmapEncode dec c).map (fun b => [b])) s = some x := by
  intro x
  induction x with
  | nil =>
    intro s h
    simp only [decodeAll, Option.some_inj] at h
    subst h
    rfl
  | cons b bs ih =>
    intro s h
    unfold decodeAll at h
    cases hd : dec b with
    | none => rw [hd] at h; simp at h
    | some c =>
      rw [hd] at h
      cases hds : decodeAll dec bs with
      | none => rw [hds] at h; simp at h
      | some cs =>
        rw [hds] at h
        simp only [Option.some_inj] at h
        subst h
        unfold encodeWith
        rw [hinv b c hd, ih cs hds]
        rfl

/-- Lifting `charmapEncode` soundness: a charmap strict encode is undone by
the strict decode. -/
theorem encodeWith_decodeAll (dec : Nat → Option Nat) :
    ∀ s d : List Nat,
      encodeWith (fun c => (charmapEncode dec c).map (fun b => [b])) s = some d →
      decodeAll dec d = some s := by
  intro s
  induction s with
  | nil =>
    intro d h
    simp only [encodeWith, Option.some_inj] at h
    subst h
    rfl
  | cons c cs ih =>
    intro d h
    unfold encodeWith at h
    cases he : charmapEncode dec c with
    | none => rw [he] at h; simp at h
    | some b =>
      rw [he] at h
      cases hes : encodeWith (fun c => (charmapEncode dec c).map (fun b => [b])) cs with
      | none => rw [hes] at h; simp at h
      | some rest =>
        rw [hes] at h
        simp only [Option.map_some', List.singleton_append, Option.some_inj] at h
        subst h
        unfold decodeAll
        rw [charmapEncode_decode dec c b he, ih rest hes]

/-! ### UTF-8 codec lemmas -/

/-- `utf8EncodeChar` never returns the empty byte list. -/
theorem utf8EncodeChar_ne_nil (c : Nat) (l : List Nat)
    (h : utf8EncodeChar c = some l) : l ≠ [] := by
  unfold utf8EncodeChar at h
  split at h
  · simp only [Option.some_inj] at h; subst h; simp
  · split at h
    · simp only [Option.some_inj] at h; subst h; simp
    · split at h
      · split at h
        · exact absurd h (by simp)
        · simp only [Option.some_inj] at h; subst h; simp
      · split at h
        · simp only [Option.some_inj] at h; subst h; simp
        · exact absurd h (by simp)

/-- Decoding one step undoes `utf8EncodeChar`, for any trailing bytes. -/
theorem utf8DecodeStep_encodeChar (c : Nat) (b : Nat) (tl rest : List Nat)
    (h : utf8EncodeChar c = some (b :: tl)) :
    utf8DecodeStep b (tl ++ rest) = some (c, rest) := by
  unfold utf8EncodeChar at h
  split at h
  case isTrue h1 =>
    simp only [Option.some_inj, List.cons.injEq] at h
    obtain ⟨hb, htl⟩ := h
    subst hb; subst htl
    simp only [List.nil_append]
    unfold utf8DecodeStep
    rw [if_pos h1]
  case isFalse h1 =>
    split at h
    case isTrue h2 =>
      simp only [Option.some_inj, List.cons.injEq] at h
      obtain ⟨hb, htl⟩ := h
      subst hb
      subst htl
      have ha : ¬(0xC0 + c / 64 < 0x80) := by omega
      have hbnd : 0xC2 ≤ 0xC0 + c / 64 ∧ 0xC0 + c / 64 ≤ 0xDF := by omega
      have hcont : 0x80 ≤ 0x80 + c % 64 ∧ 0x80 + c % 64 < 0xC0 := by omega
      have hval : (0xC0 + c / 64 - 0xC0) * 64 + (0x80 + c % 64 - 0x80) = c := by
        omega
      unfold utf8DecodeStep
      rw [if_neg ha, if_pos hbnd]
      simp only [List.cons_append]
      rw [if_pos hcont, hval]
      simp
    case isFalse h2 =>
      split at h
      case isTrue h3 =>
        split at h
        case isTrue h4 => exact absurd h (by simp)
        case isFalse h4 =>
          simp only [Option.some_inj, List.cons.injEq] at h
          obtain ⟨hb, htl⟩ := h
          subst hb
          subst htl
          have ha : ¬(0xE0 + c / 4096 < 0x80) := by omega
          have hb2 : ¬(0xC2 ≤ 0xE0 + c / 4096 ∧ 0xE0 + c / 4096 ≤ 0xDF) := by omega
          have hbnd : 0xE0 ≤ 0xE0 + c / 4096 ∧ 0xE0 + c / 4096 ≤ 0xEF := by omega
          have hcond : (0xE0 + c / 4096 = 0xE0 → 0xA0 ≤ 0x80 + c / 64 % 64) ∧
              (0xE0 + c / 4096 = 0xED → 0x80 + c / 64 % 64 < 0xA0) ∧
              (0x80 ≤ 0x80 + c / 64 % 64 ∧ 0x80 + c / 64 % 64 < 0xC0) ∧
              (0x80 ≤ 0x80 + c % 64 ∧ 0x80 + c % 64 < 0xC0) :=
            ⟨fun hx => by omega, fun hx => by omega, by omega, by omega⟩
          have hval : (0xE0 + c / 4096 - 0xE0) * 4096 +
              (0x80 + c / 64 % 64 - 0x80) * 64 + (0x80 + c % 64 - 0x80) = c := by
            omega
          unfold utf8DecodeStep
          rw [if_neg ha, if_neg hb2, if_pos hbnd]
          simp only [List.cons_append]
          rw [if_pos hcond, hval]
          simp
      case isFalse h3 =>
        split at h
        case isTrue h4 =>
          simp only [Option.some_inj, List.cons.injEq] at h
          obtain ⟨hb, htl⟩ := h
          subst hb
          subst htl
          have ha : ¬(0xF0 + c / 262144 < 0x80) := by omega
          have hb2 : ¬(0xC2 ≤ 0xF0 + c / 262144 ∧ 0xF0 + c / 262144 ≤ 0xDF) := by
            omega
          have hb3 : ¬(0xE0 ≤ 0xF0 + c / 262144 ∧ 0xF0 + c / 262144 ≤ 0xEF) := by
            omega
          have hbnd : 0xF0 ≤ 0xF0 + c / 262144 ∧ 0xF0 + c / 262144 ≤ 0xF4 := by
            omega
          have hcond : (0xF0 + c / 262144 = 0xF0 → 0x90 ≤ 0x80 + c / 4096 % 64) ∧
              (0xF0 + c / 262144 = 0xF4 → 0x80 + c / 4096 % 64 < 0x90) ∧
              (0x80 ≤ 0x80 + c / 4096 % 64 ∧ 0x80 + c / 4096 % 64 < 0xC0) ∧
              (0x80 ≤ 0x80 + c / 64 % 64 ∧ 0x80 + c / 64 % 64 < 0xC0) ∧
              (0x80 ≤ 0x80 + c % 64 ∧ 0x80 + c % 64 < 0xC0) :=
            ⟨fun hx => by omega, fun hx => by omega, by omega, by omega, by omega⟩
          have hval : (0xF0 + c / 262144 - 0xF0) * 262144 +
              (0x80 + c / 4096 % 64 - 0x80) * 4096 +
              (0x80 + c / 64 % 64 - 0x80) * 64 + (0x80 + c % 64 - 0x80) = c := by
            omega
          unfold utf8DecodeStep
          rw [if_neg ha, if_neg hb2, if_neg hb3, if_pos hbnd]
          simp only [List.cons_append]
          rw [if_pos hcond, hval]
          simp
        case isFalse h4 => exact absurd h (by simp)

/-- Reconstruction of a 2-byte UTF-8 encoding from its bytes. -/
theorem utf8EncodeChar_bytes2 (b b1 : Nat)
    (hb : 0xC2 ≤ b ∧ b ≤ 0xDF) (hb1 : 0x80 ≤ b1 ∧ b1 < 0xC0) :
    utf8EncodeChar ((b - 0xC0) * 64 + (b1 - 0x80)) = some [b, b1] := by
  unfold utf8EncodeChar
  have hn1 : ¬((b - 0xC0) * 64 + (b1 - 0x80) < 0x80) := by omega
  have hlt : (b - 0xC0) * 64 + (b1 - 0x80) < 0x800 := by omega
  rw [if_neg hn1, if_pos hlt]
  have e1 : 0xC0 + ((b - 0xC0) * 64 + (b1 - 0x80)) / 64 = b := by omega
  have e2 : 0x80 + ((b - 0xC0) * 64 + (b1 - 0x80)) % 64 = b1 := by omega
  rw [e1, e2]

/-- Reconstruction of a 3-byte UTF-8 encoding from its bytes (the byte-1
windows for 0xE0/0xED exclude overlong forms and surrogates). -/
theorem utf8EncodeChar_bytes3 (b b1 b2 : Nat)
    (hb : 0xE0 ≤ b ∧ b ≤ 0xEF)
    (hb1 : 0x80 ≤ b1 ∧ b1 < 0xC0) (hb2 : 0x80 ≤ b2 ∧ b2 < 0xC0)
    (hE0 : b = 0xE0 → 0xA0 ≤ b1) (hED : b = 0xED → b1 < 0xA0) :
    utf8EncodeChar ((b - 0xE0) * 4096 + (b1 - 0x80) * 64 + (b2 - 0x80)) =
      some [b, b1, b2] := by
  have hrange : 0x800 ≤ (b - 0xE0) * 4096 + (b1 - 0x80) * 64 + (b2 - 0x80) ∧
      ¬(0xD800 ≤ (b - 0xE0) * 4096 + (b1 - 0x80) * 64 + (b2 - 0x80) ∧
        (b - 0xE0) * 4096 + (b1 - 0x80) * 64 + (b2 - 0x80) ≤ 0xDFFF) := by
    by_cases hbe : b = 0xE0
    · have := hE0 hbe
      subst hbe
      omega
    · by_cases hbd : b = 0xED
      · have := hED hbd
        subst hbd
        omega
      · omega
  obtain ⟨hlo, hns⟩ := hrange
  unfold utf8EncodeChar
  have hn1 : ¬((b - 0xE0) * 4096 + (b1 - 0x80) * 64 + (b2 - 0x80) < 0x80) := by omega
  have hn2 : ¬((b - 0xE0) * 4096 + (b1 - 0x80) * 64 + (b2 - 0x80) < 0x800) := by omega
  have hlt : (b - 0xE0) * 4096 + (b1 - 0x80) * 64 + (b2 - 0x80) < 0x10000 := by omega
  rw [if_neg hn1, if_neg hn2, if_pos hlt, if_neg hns]
  have e1 : 0xE0 + ((b - 0xE0) * 4096 + (b1 - 0x80) * 64 + (b2 - 0x80)) / 4096 = b := by
    omega
  have e2 : 0x80 + ((b - 0xE0) * 4096 + (b1 - 0x80) * 64 + (b2 - 0x80)) / 64 % 64 = b1 := by
    omega
  have e3 : 0x80 + ((b - 0xE0) * 4096 + (b1 - 0x80) * 64 + (b2 - 0x80)) % 64 = b2 := by
    omega
  rw [e1, e2, e3]

/-- Reconstruction of a 4-byte UTF-8 encoding from its bytes (the byte-1
windows for 0xF0/0xF4 exclude overlong forms and values above 0x10FFFF). -/
theorem utf8EncodeChar_bytes4 (b b1 b2 b3 : Nat)
    (hb : 0xF0 ≤ b ∧ b ≤ 0xF4)
    (hb1 : 0x80 ≤ b1 ∧ b1 < 0xC0) (hb2 : 0x80 ≤ b2 ∧ b2 < 0xC0)
    (hb3 : 0x80 ≤ b3 ∧ b3 < 0xC0)
    (hF0 : b = 0xF0 → 0x90 ≤ b1) (hF4 : b = 0xF4 → b1 < 0x90) :
    utf8EncodeChar ((b - 0xF0) * 262144 + (b1 - 0x80) * 4096 + (b2 - 0x80) * 64 +
      (b3 - 0x80)) = some [b, b1, b2, b3] := by
  have hrange : 0x10000 ≤ (b - 0xF0) * 262144 + (b1 - 0x80) * 4096 +
      (b2 - 0x80) * 64 + (b3 - 0x80) ∧
      (b - 0xF0) * 262144 + (b1 - 0x80) * 4096 + (b2 - 0x80) * 64 + (b3 - 0x80) <
        0x110000 := by
    by_cases hbe : b = 0xF0
    · have := hF0 hbe
      subst hbe
      omega
    · by_cases hbd : b = 0xF4
      · have := hF4 hbd
        subst hbd
        omega
      · omega
  obtain ⟨hlo, hhi⟩ := hrange
  unfold utf8EncodeChar
  have hn1 : ¬((b - 0xF0) * 262144 + (b1 - 0x80) * 4096 + (b2 - 0x80) * 64 + (b3 - 0x80) < 0x80) := by
    omega
  have hn2 : ¬((b - 0xF0) * 262144 + (b1 - 0x80) * 4096 + (b2 - 0x80) * 64 + (b3 - 0x80) < 0x800) := by
    omega
  have hn3 : ¬((b - 0xF0) * 262144 + (b1 - 0x80) * 4096 + (b2 - 0x80) * 64 + (b3 - 0x80) < 0x10000) := by
    omega
  rw [if_neg hn1, if_neg hn2, if_neg hn3, if_pos hhi]
  have e1 : 0xF0 + ((b - 0xF0) * 262144 + (b1 - 0x80) * 4096 + (b2 - 0x80) * 64 + (b3 - 0x80)) / 262144 = b := by
    omega
  have e2 : 0x80 + ((b - 0xF0) * 262144 + (b1 - 0x80) * 4096 + (b2 - 0x80) * 64 + (b3 - 0x80)) / 4096 % 64 = b1 := by
    omega
  have e3 : 0x80 + ((b - 0xF0) * 262144 + (b1 - 0x80) * 4096 + (b2 - 0x80) * 64 + (b3 - 0x80)) / 64 % 64 = b2 := by
    omega
  have e4 : 0x80 + ((b - 0xF0) * 262144 + (b1 - 0x80) * 4096 + (b2 - 0x80) * 64 + (b3 - 0x80)) % 64 = b3 := by
    omega
  rw [e1, e2, e3, e4]

/-- Inversion of one decoding step: the consumed bytes are exactly the UTF-8
encoding of the produced code point (strictness of the decoder: no overlong
forms, no surrogates). -/
theorem utf8DecodeStep_inv (b : Nat) (bs : List Nat) (c : Nat) (rest : List Nat)
    (h : utf8DecodeStep b bs = some (c, rest)) :
    ∃ tl, bs = tl ++ rest ∧ utf8EncodeChar c = some (b :: tl) := by
  unfold utf8DecodeStep at h
  split at h
  case isTrue h1 =>
    simp only [Option.some_inj, Prod.mk.injEq] at h
    obtain ⟨hc, hr⟩ := h
    subst hc
    subst hr
    exact ⟨[], by simp, by unfold utf8EncodeChar; rw [if_pos h1]⟩
  case isFalse h1 =>
    split at h
    case isTrue h2 =>
      split at h
      next b1 bs1 =>
        split at h
        case isTrue h3 =>
          simp only [Option.some_inj, Prod.mk.injEq] at h
          obtain ⟨hc, hr⟩ := h
          subst hc
          subst hr
          exact ⟨[b1], by simp, utf8EncodeChar_bytes2 b b1 h2 h3⟩
        case isFalse h3 => exact absurd h (by simp)
      next => exact absurd h (by simp)
    case isFalse h2 =>
      split at h
      case isTrue h3 =>
        split at h
        next b1 b2 bs2 =>
          split at h
          case isTrue h4 =>
            obtain ⟨hE0, hED, hb1, hb2⟩ := h4
            simp only [Option.some_inj, Prod.mk.injEq] at h
            obtain ⟨hc, hr⟩ := h
            subst hc
            subst hr
            exact ⟨[b1, b2], by simp,
              utf8EncodeChar_bytes3 b b1 b2 h3 hb1 hb2 hE0 hED⟩
          case isFalse h4 => exact absurd h (by simp)
        next => exact absurd h (by simp)
      case isFalse h3 =>
        split at h
        case isTrue h4 =>
          split at h
          next b1 b2 b3 bs3 =>
            split at h
            case isTrue h5 =>
              obtain ⟨hF0, hF4, hb1, hb2, hb3⟩ := h5
              simp only [Option.some_inj, Prod.mk.injEq] at h
              obtain ⟨hc, hr⟩ := h
              subst hc
              subst hr
              exact ⟨[b1, b2, b3], by simp,
                utf8EncodeChar_bytes4 b b1 b2 b3 h4 hb1 hb2 hb3 hF0 hF4⟩
            case isFalse h5 => exact absurd h (by simp)
          next => exact absurd h (by simp)
        case isFalse h4 => exact absurd h (by simp)

/-- A decoding step consumes at least the first byte: the remainder is no
longer than the tail. -/
theorem utf8DecodeStep_length (b : Nat) (bs : List Nat) (c : Nat)
    (rest : List Nat) (h : utf8DecodeStep b bs = some (c, rest)) :
    rest.length ≤ bs.length := by
  obtain ⟨tl, hbs, _⟩ := utf8DecodeStep_inv b bs c rest h
  rw [hbs]
  simp

/-- The fuel of `utf8DecodeGo` is irrelevant once it covers the input
length. -/
theorem utf8DecodeGo_irrel : ∀ f1 f2 (x : List Nat), x.length ≤ f1 →
    x.length ≤ f2 → utf8DecodeGo f1 x = utf8DecodeGo f2 x := by
  intro f1
  induction f1 with
  | zero =>
    intro f2 x h1 _
    cases x with
    | nil => cases f2 <;> rfl
    | cons b bs => simp at h1
  | succ f1 ih =>
    intro f2 x h1 h2
    cases x with
    | nil => cases f2 <;> rfl
    | cons b bs =>
      cases f2 with
      | zero => simp at h2
      | succ f2 =>
        show (match utf8DecodeStep b bs with
          | some (c, rest) =>
            match utf8DecodeGo f1 rest with
            | some cs => some (c :: cs)
            | none => none
          | none => none) =
          (match utf8DecodeStep b bs with
          | some (c, rest) =>
            match utf8DecodeGo f2 rest with
            | some cs => some (c :: cs)
            | none => none
          | none => none)
        cases hs : utf8DecodeStep b bs with
        | none => rfl
        | some p =>
          obtain ⟨c, rest⟩ := p
          have hr := utf8DecodeStep_length b bs c rest hs
          simp only [List.length_cons] at h1 h2
          dsimp only
          rw [ih f2 rest (by omega) (by omega)]

/-- Strict UTF-8 decoding is undone by strict UTF-8 encoding (the decoder
accepts only canonical encodings). -/
theorem utf8Decode_encodeWith : ∀ x s : List Nat, utf8Decode x = some s →
    encodeWith utf8EncodeChar s = some x := by
  have aux : ∀ n x s, x.length ≤ n → utf8DecodeGo x.length x = some s →
      encodeWith utf8EncodeChar s = some x := by
    intro n
    induction n with
    | zero =>
      intro x s hlen h
      cases x with
      | nil =>
        simp only [utf8DecodeGo, Option.some_inj] at h
        subst h
        rfl
      | cons b bs => simp at hlen
    | succ n ih =>
      intro x s hlen h
      cases x with
      | nil =>
        simp only [utf8DecodeGo, Option.some_inj] at h
        subst h
        rfl
      | cons b bs =>
        rw [show (b :: bs).length = bs.length + 1 from rfl] at h
        unfold utf8DecodeGo at h
        cases hs : utf8DecodeStep b bs with
        | none => rw [hs] at h; simp at h
        | some p =>
          obtain ⟨c, rest⟩ := p
          rw [hs] at h
          dsimp only at h
          cases hg : utf8DecodeGo bs.length rest with
          | none => rw [hg] at h; simp at h
          | some cs =>
            rw [hg] at h
            simp only [Option.some_inj] at h
            subst h
            obtain ⟨tl, hbs, henc⟩ := utf8DecodeStep_inv b bs c rest hs
            have hrl : rest.length ≤ bs.length := by rw [hbs]; simp
            have hg2 : utf8DecodeGo rest.length rest = some cs := by
              rw [utf8DecodeGo_irrel rest.length bs.length rest le_rfl hrl]
              exact hg
            simp only [List.length_cons] at hlen
            have hcs := ih rest cs (by omega) hg2
            unfold encodeWith
            rw [henc, hcs]
            simp [hbs]
  intro x s h
  exact aux x.length x s le_rfl h

/-- Strict UTF-8 encoding is undone by strict UTF-8 decoding. -/
theorem encodeWith_utf8Decode : ∀ s d : List Nat,
    encodeWith utf8EncodeChar s = some d → utf8Decode d = some s := by
  intro s
  induction s with
  | nil =>
    intro d h
    simp only [encodeWith, Option.some_inj] at h
    subst h
    rfl
  | cons c cs ih =>
    intro d h
    unfold encodeWith at h
    cases he : utf8EncodeChar c with
    | none => rw [he] at h; simp at h
    | some bsC =>
      rw [he] at h
      cases hes : encodeWith utf8EncodeChar cs with
      | none => rw [hes] at h; simp at h
      | some restD =>
        rw [hes] at h
        simp only [Option.some_inj] at h
        subst h
        obtain ⟨b, tl, rfl⟩ : ∃ b tl, bsC = b :: tl := by
          cases bsC with
          | nil => exact absurd rfl (utf8EncodeChar_ne_nil c [] he)
          | cons b tl => exact ⟨b, tl, rfl⟩
        have hstep := utf8DecodeStep_encodeChar c b tl restD he
        have hrec : utf8DecodeGo restD.length restD = some cs := ih restD hes
        show utf8DecodeGo ((b :: tl) ++ restD).length ((b :: tl) ++ restD) =
          some (c :: cs)
        rw [show ((b :: tl) ++ restD).length = (tl ++ restD).length + 1 by simp]
        rw [show ((b :: tl) ++ restD) = b :: (tl ++ restD) from rfl]
        unfold utf8DecodeGo
        rw [hstep]
        dsimp only
        rw [utf8DecodeGo_irrel (tl ++ restD).length restD.length restD
          (by simp) le_rfl]
        rw [hrec]

/-! ### Codec-level round trips -/

/-- Any of the three codecs: strict decode then strict encode is the
identity on the original bytes. -/
theorem codecDecode_encode (cd : Codec) (x s : List Nat)
    (h : codecDecode cd x = some s) : codecEncode cd s = some x := by
  cases cd with
  | cp1252 => exact decodeAll_encodeWith cp1252decode cp1252_encode_of_decode x s h
  | cp437 => exact decodeAll_encodeWith cp437decode cp437_encode_of_decode x s h
  | utf8 => exact utf8Decode_encodeWith x s h

/-- Any of the three codecs: strict encode then strict decode is the
identity on the code points. -/
theorem codecEncode_decode (cd : Codec) (s d : List Nat)
    (h : codecEncode cd s = some d) : codecDecode cd d = some s := by
  cases cd with
  | cp1252 => exact encodeWith_decodeAll cp1252decode s d h
  | cp437 => exact encodeWith_decodeAll cp437decode s d h
  | utf8 => exact encodeWith_utf8Decode s d h

/-! ### Pagination lemmas -/

/-- Indexing a list over `range' a k` and discarding misses is `drop`/`take`. -/
theorem range'_filterMap_getElem {α : Type*} (l : List α) (a k : Nat) :
    (List.range' a k).filterMap (fun i => l[i]?) = (l.drop a).take k := by
  induction k generalizing a with
  | zero => simp
  | succ k ih =>
    rw [List.range'_succ, List.filterMap_cons]
    by_cases h : a < l.length
    · rw [List.getElem?_eq_getElem h]
      simp only [ih]
      rw [List.drop_eq_getElem_cons h, List.take_succ_cons]
    · push_neg at h
      have h1 : l[a]? = none := List.getElem?_eq_none h
      have h2 : l.drop a = [] := List.drop_eq_nil_of_le h
      have h3 : l.drop (a + 1) = [] := List.drop_eq_nil_of_le (by omega)
      rw [h1, h2, ih (a + 1), h3]
      simp

/-- `pageSlice` in `drop`/`take` form. -/
theorem pageSlice_eq_drop_take {α : Type*} (view : List α) (page rpp : Nat) :
    pageSlice view page rpp = (view.drop (page * rpp)).take rpp := by
  unfold pageSlice
  rw [range'_filterMap_getElem]
  rcases Nat.le_total (page * rpp + rpp) view.length with h | h
  · rw [min_eq_left h]
    congr 1
    omega
  · rw [min_eq_right h]
    rw [List.take_of_length_le (by simp),
      List.take_of_length_le (by simp; omega)]

/-- Concatenating the first `m` page slices gives the first `m*rpp` rows. -/
theorem flatten_pageSlices_take {α : Type*} (view : List α) (rpp m : Nat) :
    ((List.range m).map (fun p => pageSlice view p rpp)).flatten =
      view.take (m * rpp) := by
  induction m with
  | zero => simp
  | succ m ih =>
    rw [List.range_succ, List.map_append, List.flatten_append, ih]
    simp only [List.map_cons, List.map_nil, List.flatten_cons, List.flatten_nil,
      List.append_nil]
    rw [pageSlice_eq_drop_take, ← List.take_add, Nat.succ_mul]

/-- With a positive page size, `totalPages n rpp` pages of size `rpp` reach
past `n`. -/
theorem le_totalPages_mul (n rpp : Nat) (hrpp : 0 < rpp) :
    n ≤ totalPages n rpp * rpp := by
  unfold totalPages
  have hdm := Nat.div_add_mod (n + rpp - 1) rpp
  have hlt : (n + rpp - 1) % rpp < rpp := Nat.mod_lt _ hrpp
  rcases Nat.eq_zero_or_pos ((n + rpp - 1) / rpp) with h0 | h0
  · rw [h0] at hdm ⊢
    norm_num
    omega
  · rw [max_eq_right h0, Nat.mul_comm]
    generalize hm : rpp * ((n + rpp - 1) / rpp) = m at hdm ⊢
    omega

/-! ### Deletion lemmas -/

theorem filter_not_contains_map_snd {α : Type*} (idxs : List Nat)
    (ps : List (Nat × α)) :
    (ps.filter (fun p => decide (p.1 ∉ idxs))).map Prod.snd =
      ps.filterMap (fun p => if p.1 ∈ idxs then none else some p.2) := by
  induction ps with
  | nil => rfl
  | cons p ps ih =>
    simp only [decide_not] at ih
    by_cases h : p.1 ∈ idxs
    · simp [List.filter_cons, List.filterMap_cons, h, ih]
    · simp [List.filter_cons, List.filterMap_cons, h, ih]

/-- The batch drop of `delete_selected` refines the spec's
delete-by-snapshot. -/
theorem dropRows_eq_snapshotDelete {α : Type*} (rows : List α)
    (idxs : List Nat) :
    dropRows rows idxs = snapshotDelete rows idxs := by
  unfold dropRows snapshotDelete
  rw [filter_not_contains_map_snd, ← List.enum_map_fst rows,
    List.filterMap_map]
  apply List.filterMap_congr
  intro p hp
  obtain ⟨hlt, hx⟩ := List.mem_enum hp
  simp only [Function.comp_apply]
  by_cases h : p.1 ∈ idxs
  · simp [h]
  · simp [h, List.getElem?_eq_getElem hlt, hx]

/-! ### Conversion lemmas -/

/-- Strict decoding of the empty byte string always succeeds. -/
theorem codecDecode_nil (cd : Codec) : codecDecode cd [] = some [] := by
  cases cd <;> rfl

/-- Strict encoding of the empty string always succeeds. -/
theorem codecEncode_nil (cd : Codec) : codecEncode cd [] = some [] := by
  cases cd <;> rfl

/-- Unfolding of `convertDbf` on a file of sufficient length. -/
theorem convertDbf_eq (fromC toC : Codec) (content : List Nat)
    (hlen : ¬ content.length < 32) :
    convertDbf fromC toC content =
      match codecDecode fromC (content.drop (headerLength content)) with
      | some s => (codecEncode toC s).map
          (fun d => content.take (headerLength content) ++ d)
      | none => some (content.take (headerLength content) ++
          codecEncodeReplace toC
            (codecDecodeReplace fromC (content.drop (headerLength content)))) := by
  unfold convertDbf
  rw [if_neg hlen]
  dsimp only
  cases codecDecode fromC (content.drop (headerLength content)) with
  | none => rfl
  | some s =>
    dsimp only
    cases codecEncode toC s with
    | none => rfl
    | some d => rfl

/-- Whatever path the conversion takes, its output is the unmodified header
followed by some transcoded data. -/
theorem convertDbf_shape (fromC toC : Codec) (content out : List Nat)
    (h : convertDbf fromC toC content = some out) :
    ¬ content.length < 32 ∧
      ∃ d, out = content.take (headerLength content) ++ d := by
  unfold convertDbf at h
  split at h
  case isTrue => exact absurd h (by simp)
  case isFalse hlen =>
    refine ⟨hlen, ?_⟩
    dsimp only at h
    split at h
    next s hdec =>
      split at h
      next d henc =>
        simp only [Option.some_inj] at h
        exact ⟨d, h.symm⟩
      next => exact absurd h (by simp)
    next =>
      simp only [Option.some_inj] at h
      exact ⟨_, h.symm⟩

/-- The header-length field itself lies inside the preserved header when the
header is at least 10 bytes long, so it survives the conversion. -/
theorem headerLength_take_append (content d : List Nat)
    (hlen : 10 ≤ content.length) (hhl : 10 ≤ headerLength content) :
    headerLength (content.take (headerLength content) ++ d) =
      headerLength content := by
  unfold headerLength at *
  simp only [List.getD_eq_getElem?_getD] at hhl ⊢
  have h8 : (content.take (content[8]?.getD 0 + 256 * content[9]?.getD 0) ++ d)[8]? =
      content[8]? := by
    rw [List.getElem?_append_left (by simp; omega), List.getElem?_take_of_lt (by omega)]
  have h9 : (content.take (content[8]?.getD 0 + 256 * content[9]?.getD 0) ++ d)[9]? =
      content[9]? := by
    rw [List.getElem?_append_left (by simp; omega), List.getElem?_take_of_lt (by omega)]
  rw [h8, h9]

/-- Taking back the header prefix of `header ++ d` recovers it, when the
header length is within the original file. -/
theorem take_append_take {α : Type*} (l d : List α) (n : Nat)
    (hn : n ≤ l.length) : ((l.take n) ++ d).take n = l.take n := by
  rw [List.take_append_eq_append_take, List.take_take, Nat.min_self,
    List.length_take, min_eq_left hn, Nat.sub_self, List.take_zero,
    List.append_nil]

/-! ### Claim C2 -/

/-- C2 (confirmed): for every DBF file of at least 32 bytes on which the
conversion succeeds, the first `headerLength` bytes — the little-endian
16-bit integer at offset 8 — are byte-identical before and after the
conversion, and the output is exactly that unmodified header followed by the
transcoded data: only bytes after the header are changed. -/
theorem claim_C2 (fromC toC : Codec) (content out : List Nat)
    (hlen : 32 ≤ content.length)
    (h : convertDbf fromC toC content = some out) :
    out.take (headerLength content) = content.take (headerLength content) ∧
    ∃ d, out = content.take (headerLength content) ++ d := by
  obtain ⟨hl32, d, hout⟩ := convertDbf_shape fromC toC content out h
  refine ⟨?_, d, hout⟩
  rcases Nat.le_total (headerLength content) content.length with hle | hle
  · rw [hout]
    exact take_append_take content d (headerLength content) hle
  · have hdata : content.drop (headerLength content) = [] :=
      List.drop_eq_nil_of_le hle
    have heq := convertDbf_eq fromC toC content hl32
    rw [hdata, codecDecode_nil] at heq
    dsimp only at heq
    rw [codecEncode_nil] at heq
    rw [h] at heq
    simp only [Option.map_some', List.append_nil, Option.some_inj] at heq
    rw [heq, List.take_take, Nat.min_self]

theorem claim_C2_witness :
    32 ≤ (List.replicate 8 0 ++ [32, 0] ++ List.replicate 22 0 ++ [65] : List Nat).length ∧
    convertDbf .cp1252 .cp437
        (List.replicate 8 0 ++ [32, 0] ++ List.replicate 22 0 ++ [65]) =
      some (List.replicate 8 0 ++ [32, 0] ++ List.replicate 22 0 ++ [65]) ∧
    ((List.replicate 8 0 ++ [32, 0] ++ List.replicate 22 0 ++ [65] : List Nat).take
        (headerLength (List.replicate 8 0 ++ [32, 0] ++ List.replicate 22 0 ++ [65])) =
      (List.replicate 8 0 ++ [32, 0] ++ List.replicate 22 0 ++ [65] : List Nat).take
        (headerLength (List.replicate 8 0 ++ [32, 0] ++ List.replicate 22 0 ++ [65])) ∧
    ∃ d, (List.replicate 8 0 ++ [32, 0] ++ List.replicate 22 0 ++ [65] : List Nat) =
      (List.replicate 8 0 ++ [32, 0] ++ List.replicate 22 0 ++ [65] : List Nat).take
        (headerLength (List.replicate 8 0 ++ [32, 0] ++ List.replicate 22 0 ++ [65])) ++ d) :=
  ⟨by decide, by decide,
    claim_C2 .cp1252 .cp437 _ _ (by decide) (by decide)⟩

/-! ### Claim C1 -/

/-- C1 (counterexample to the claim as stated): a 33-byte DBF file whose
data region is the single byte 0x80 decodes cleanly under cp1252 (to the
euro sign U+20AC), yet converting cp1252→cp437 and back does not restore the
file: the euro sign is unencodable in cp437, so the first conversion raises
`UnicodeEncodeError` and leaves the file unchanged, after which the
cp437→cp1252 pass rewrites the data byte 0x80 (cp437 Ç) to 0xC7. -/
theorem claim_C1_counterexample :
    ((codecDecode .cp1252
      ((List.replicate 8 0 ++ [32, 0] ++ List.replicate 22 0 ++ [0x80] : List Nat).drop
        (headerLength (List.replicate 8 0 ++ [32, 0] ++ List.replicate 22 0 ++ [0x80])))).isSome
      = true) ∧
    convertInPlace .cp437 .cp1252
        (convertInPlace .cp1252 .cp437
          (List.replicate 8 0 ++ [32, 0] ++ List.replicate 22 0 ++ [0x80])) ≠
      (List.replicate 8 0 ++ [32, 0] ++ List.replicate 22 0 ++ [0x80] : List Nat) := by
  constructor
  · decide
  · decide

/-- C1 (amended): the round trip restores the file provided additionally
that the cleanly decoded data region also encodes cleanly under the target
code page (so the first conversion does not abort with an encoding error)
and that the header is at least 32 bytes (as in every real DBF file, whose
header is 32 bytes plus field descriptors), keeping the header-length field
inside the preserved region. -/
theorem claim_C1 (fromC toC : Codec) (b s d : List Nat)
    (hlen : 32 ≤ b.length)
    (hhl : 32 ≤ headerLength b)
    (hdec : codecDecode fromC (b.drop (headerLength b)) = some s)
    (henc : codecEncode toC s = some d) :
    convertInPlace toC fromC (convertInPlace fromC toC b) = b := by
  have hdnil : b.length ≤ headerLength b → d = [] := by
    intro hle
    have hdata : b.drop (headerLength b) = [] := List.drop_eq_nil_of_le hle
    rw [hdata, codecDecode_nil] at hdec
    simp only [Option.some_inj] at hdec
    rw [← hdec, codecEncode_nil] at henc
    simp only [Option.some_inj] at henc
    exact henc.symm
  have h1 : convertDbf fromC toC b = some (b.take (headerLength b) ++ d) := by
    rw [convertDbf_eq fromC toC b (by omega), hdec]
    dsimp only
    rw [henc]
    rfl
  have hip1 : convertInPlace fromC toC b = b.take (headerLength b) ++ d := by
    rw [convertInPlace, h1]
    rfl
  have hhl2 : headerLength (b.take (headerLength b) ++ d) = headerLength b :=
    headerLength_take_append b d (by omega) (by omega)
  have hlen2 : 32 ≤ (b.take (headerLength b) ++ d).length := by
    simp only [List.length_append, List.length_take]
    omega
  have hdata2 : (b.take (headerLength b) ++ d).drop (headerLength b) = d := by
    rcases Nat.le_total (headerLength b) b.length with hle | hle
    · exact List.drop_left' (by rw [List.length_take]; omega)
    · have hd := hdnil hle
      subst hd
      rw [List.append_nil, List.drop_eq_nil_of_le (by rw [List.length_take]; omega)]
  have htake2 : (b.take (headerLength b) ++ d).take (headerLength b) =
      b.take (headerLength b) := by
    rcases Nat.le_total (headerLength b) b.length with hle | hle
    · exact take_append_take b d (headerLength b) hle
    · have hd := hdnil hle
      subst hd
      rw [List.append_nil, List.take_take, Nat.min_self]
  have hdec2 : codecDecode toC
      ((b.take (headerLength b) ++ d).drop
        (headerLength (b.take (headerLength b) ++ d))) = some s := by
    rw [hhl2, hdata2]
    exact codecEncode_decode toC s d henc
  have henc2 : codecEncode fromC s = some (b.drop (headerLength b)) :=
    codecDecode_encode fromC _ s hdec
  have h2 : convertDbf toC fromC (b.take (headerLength b) ++ d) =
      some ((b.take (headerLength b) ++ d).take
          (headerLength (b.take (headerLength b) ++ d)) ++
        b.drop (headerLength b)) := by
    rw [convertDbf_eq toC fromC _ (by omega), hdec2]
    dsimp only
    rw [henc2]
    rfl
  rw [hip1, convertInPlace, h2]
  simp only [Option.getD_some]
  rw [hhl2, htake2]
  exact List.take_append_drop (headerLength b) b

theorem claim_C1_witness :
    32 ≤ (List.replicate 8 0 ++ [32, 0] ++ List.replicate 22 0 ++ [65] : List Nat).length ∧
    32 ≤ headerLength (List.replicate 8 0 ++ [32, 0] ++ List.replicate 22 0 ++ [65]) ∧
    codecDecode .cp1252
      ((List.replicate 8 0 ++ [32, 0] ++ List.replicate 22 0 ++ [65] : List Nat).drop
        (headerLength (List.replicate 8 0 ++ [32, 0] ++ List.replicate 22 0 ++ [65]))) =
      some [65] ∧
    codecEncode .cp437 [65] = some [65] ∧
    convertInPlace .cp437 .cp1252
        (convertInPlace .cp1252 .cp437
          (List.replicate 8 0 ++ [32, 0] ++ List.replicate 22 0 ++ [65])) =
      (List.replicate 8 0 ++ [32, 0] ++ List.replicate 22 0 ++ [65] : List Nat) :=
  ⟨by decide, by decide, by decide, by decide,
    claim_C1 .cp1252 .cp437 _ [65] [65] (by decide) (by decide) (by decide) (by decide)⟩

/-! ### Claim C6 -/

/-- C6 (confirmed): `delete_selected` deletes exactly the rows at the
collected indices as taken against the original, pre-deletion table — it
refines the spec's delete-by-snapshot for every table and every index batch,
and on the spec's test deleting `{1,3}` from `[r0,r1,r2,r3,r4]` yields
`[r0,r2,r4]`. -/
theorem claim_C6 {α : Type} (r0 r1 r2 r3 r4 : α) (rows : List α)
    (idxs : List Nat) :
    dropRows [r0, r1, r2, r3, r4] [1, 3] = [r0, r2, r4] ∧
    dropRows rows idxs = snapshotDelete rows idxs ∧
    (∀ sel page rpp, deleteSelected rows sel page rpp =
      snapshotDelete rows (sel.map (fun i => i + page * rpp))) :=
  ⟨rfl, dropRows_eq_snapshotDelete rows idxs,
    fun sel page rpp => dropRows_eq_snapshotDelete rows _⟩

/-! ### Claim C8 -/

/-- C8 (counterexample to the claim as stated): the claim says a page index
beyond the last valid page clamps to the last page, but
`update_data_display` produces an empty slice there: on a 1-row view with
page size 1, page 5 shows nothing while the last page (page 0) shows the
row. -/
theorem claim_C8_counterexample :
    pageSlice ([7] : List Nat) 5 1 = [] ∧
    pageSlice ([7] : List Nat) (totalPages ([7] : List Nat).length 1 - 1) 1 = [7] ∧
    ¬(pageSlice ([7] : List Nat) 5 1 =
      pageSlice ([7] : List Nat) (totalPages ([7] : List Nat).length 1 - 1) 1) := by
  decide

/-- C8 (amended): for every view and page size > 0, the page slice is
exactly the rows `[page*rpp, min((page+1)*rpp, n))`; a page index beyond the
last valid page yields an *empty* slice (not a clamp to the last page); the
page count is `max(1, ceil(n/rpp))` (1 for an empty view); and the pages
`0..totalPages-1` concatenate to exactly the view — each row exactly once. -/
theorem claim_C8 {α : Type} (view : List α) (rpp : Nat) (hrpp : 0 < rpp) :
    (∀ page, pageSlice view page rpp = (view.drop (page * rpp)).take rpp) ∧
    (∀ page, totalPages view.length rpp ≤ page → pageSlice view page rpp = []) ∧
    totalPages view.length rpp = max 1 ((view.length + rpp - 1) / rpp) ∧
    ((List.range (totalPages view.length rpp)).map
      (fun p => pageSlice view p rpp)).flatten = view := by
  refine ⟨fun page => pageSlice_eq_drop_take view page rpp, ?_, rfl, ?_⟩
  · intro page hpage
    rw [pageSlice_eq_drop_take]
    have hmul : totalPages view.length rpp * rpp ≤ page * rpp :=
      Nat.mul_le_mul_right rpp hpage
    have hge : view.length ≤ page * rpp :=
      le_trans (le_totalPages_mul view.length rpp hrpp) hmul
    rw [List.drop_eq_nil_of_le hge, List.take_nil]
  · rw [flatten_pageSlices_take]
    exact List.take_of_length_le (le_totalPages_mul view.length rpp hrpp)

theorem claim_C8_witness :
    0 < 2 ∧
    ((∀ page, pageSlice ([10, 20, 30] : List Nat) page 2 =
        (([10, 20, 30] : List Nat).drop (page * 2)).take 2) ∧
    (∀ page, totalPages ([10, 20, 30] : List Nat).length 2 ≤ page →
        pageSlice ([10, 20, 30] : List Nat) page 2 = []) ∧
    totalPages ([10, 20, 30] : List Nat).length 2 =
      max 1 ((([10, 20, 30] : List Nat).length + 2 - 1) / 2) ∧
    ((List.range (totalPages ([10, 20, 30] : List Nat).length 2)).map
      (fun p => pageSlice ([10, 20, 30] : List Nat) p 2)).flatten =
      [10, 20, 30]) :=
  ⟨by decide, claim_C8 [10, 20, 30] 2 (by decide)⟩

/-! ### Claim C5 -/

/-- C5 (counterexample to the claim as stated): the query `SELECT 1` does
not reference the logical table `data`, yet `execute_sql` does not reject it
— the query is handed to the sqlite backend, and on backend success the view
is replaced and the page reset, so the state is *not* left unchanged and no
`MissingTableReference` error exists in the code. -/
theorem claim_C5_counterexample :
    containsSeq "data".toList "SELECT 1".toList = false ∧
    pyStrip "SELECT 1".toList ≠ [] ∧
    executeSql "SELECT 1".toList (some ⟨1, [[2]]⟩)
        ⟨some ⟨1, [[1]]⟩, none, 5, none, true⟩ ≠
      ⟨some ⟨1, [[1]]⟩, none, 5, none, true⟩ ∧
    (executeSql "SELECT 1".toList (some ⟨1, [[2]]⟩)
        ⟨some ⟨1, [[1]]⟩, none, 5, none, true⟩).filtered_df = some ⟨1, [[2]]⟩ ∧
    (executeSql "SELECT 1".toList (some ⟨1, [[2]]⟩)
        ⟨some ⟨1, [[1]]⟩, none, 5, none, true⟩).current_page = 0 := by
  decide

/-- C5 (amended): `execute_sql` performs no table-name validation: every
non-blank query with data loaded is passed verbatim to the backend; on
backend success the result replaces the view and the page is reset to 0, and
only when the backend raises are the view and pagination left unchanged. -/
theorem claim_C5 (q : List Char) (T base : PTable) (st : TabState)
    (hq : pyStrip q ≠ []) (hdf : st.df = some base) :
    executeSql q (some T) st =
      { st with filtered_df := some T, current_page := 0 } ∧
    executeSql q none st = st := by
  constructor
  · unfold executeSql
    rw [if_neg hq, hdf]
  · unfold executeSql
    rw [if_neg hq, hdf]

theorem claim_C5_witness :
    pyStrip "SELECT * FROM data".toList ≠ [] ∧
    (⟨some ⟨1, [[1]]⟩, none, 5, none, true⟩ : TabState).df = some ⟨1, [[1]]⟩ ∧
    (executeSql "SELECT * FROM data".toList (some ⟨1, [[2]]⟩)
        ⟨some ⟨1, [[1]]⟩, none, 5, none, true⟩ =
      { (⟨some ⟨1, [[1]]⟩, none, 5, none, true⟩ : TabState) with
          filtered_df := some ⟨1, [[2]]⟩, current_page := 0 } ∧
    executeSql "SELECT * FROM data".toList none
        ⟨some ⟨1, [[1]]⟩, none, 5, none, true⟩ =
      ⟨some ⟨1, [[1]]⟩, none, 5, none, true⟩) :=
  ⟨by decide, rfl,
    claim_C5 "SELECT * FROM data".toList ⟨1, [[2]]⟩ ⟨1, [[1]]⟩
      ⟨some ⟨1, [[1]]⟩, none, 5, none, true⟩ (by decide) rfl⟩

/-! ### Claim C7 -/

/-- C7 (counterexample to the claim as stated): sorting changes the active
View (the base dataframe is reordered by the header click) but does *not*
reset `current_page` — it stays at 5, refuting "reset to 0 whenever the View
changes — on query execution, on clear-filter, and on sort". -/
theorem claim_C7_counterexample :
    (onHeaderClick ⟨some ⟨1, [[2], [1]]⟩, none, 5, none, true⟩ 0).df =
      some ⟨1, [[1], [2]]⟩ ∧
    (onHeaderClick ⟨some ⟨1, [[2], [1]]⟩, none, 5, none, true⟩ 0).df ≠
      (⟨some ⟨1, [[2], [1]]⟩, none, 5, none, true⟩ : TabState).df ∧
    (onHeaderClick ⟨some ⟨1, [[2], [1]]⟩, none, 5, none, true⟩ 0).current_page = 5 := by
  decide

/-- C7 (amended): `current_page` is reset to 0 on successful query execution
and on clear-filter, but the sort handler leaves `current_page` unchanged
for every state and column. -/
theorem claim_C7 (st : TabState) (colIdx : Nat) (q : List Char) (T base : PTable)
    (hq : pyStrip q ≠ []) (hdf : st.df = some base) :
    (onHeaderClick st colIdx).current_page = st.current_page ∧
    (clearFilter st).current_page = 0 ∧
    (executeSql q (some T) st).current_page = 0 := by
  refine ⟨?_, rfl, ?_⟩
  · unfold onHeaderClick
    split
    · rfl
    · split
      · split
        · rfl
        · split
          · rfl
          · rfl
      · rfl
  · unfold executeSql
    rw [if_neg hq, hdf]

theorem claim_C7_witness :
    pyStrip " SELECT * FROM data ".toList ≠ [] ∧
    (⟨some ⟨1, [[1]]⟩, some ⟨1, [[9]]⟩, 7, some 0, false⟩ : TabState).df =
      some ⟨1, [[1]]⟩ ∧
    ((onHeaderClick ⟨some ⟨1, [[1]]⟩, some ⟨1, [[9]]⟩, 7, some 0, false⟩ 0).current_page =
      (⟨some ⟨1, [[1]]⟩, some ⟨1, [[9]]⟩, 7, some 0, false⟩ : TabState).current_page ∧
    (clearFilter ⟨some ⟨1, [[1]]⟩, some ⟨1, [[9]]⟩, 7, some 0, false⟩).current_page = 0 ∧
    (executeSql " SELECT * FROM data ".toList (some ⟨1, [[2]]⟩)
      ⟨some ⟨1, [[1]]⟩, some ⟨1, [[9]]⟩, 7, some 0, false⟩).current_page = 0) :=
  ⟨by decide, rfl,
    claim_C7 ⟨some ⟨1, [[1]]⟩, some ⟨1, [[9]]⟩, 7, some 0, false⟩ 0
      " SELECT * FROM data ".toList ⟨1, [[2]]⟩ ⟨1, [[1]]⟩ (by decide) rfl⟩

/-! ### Save-path lemmas and claims C3, C4 -/

/-- A write failure at row `k` leaves exactly the first `k` rows written. -/
theorem writeLoop_take (rows : List (List Nat)) :
    ∀ k, k < rows.length → writeLoop rows (some k) = (rows.take k, false) := by
  induction rows with
  | nil => intro k h; simp at h
  | cons r rs ih =>
    intro k h
    cases k with
    | zero => rfl
    | succ k =>
      simp only [writeLoop]
      rw [ih k (by simpa using h)]
      rfl

/-- Without an injected failure every row is written. -/
theorem writeLoop_none (rows : List (List Nat)) :
    writeLoop rows none = (rows, true) := by
  induction rows with
  | nil => rfl
  | cons r rs ih => simp only [writeLoop]; rw [ih]

/-- C3 (counterexample to the claim as stated): saving a 2-row table with a
write failure at row 1 (after a successful backup) leaves the target file as
the freshly re-created file holding the new schema and one row — not the
original content.  There is no temporary path and no atomic replace: the
partial destructive write is visible to the caller. -/
theorem claim_C3_counterexample :
    (saveChanges ⟨true, some 1⟩ false [[1], [2]] 7 ⟨.original 0, none, true⟩).target ≠
      DbfFile.original 0 ∧
    (saveChanges ⟨true, some 1⟩ false [[1], [2]] 7 ⟨.original 0, none, true⟩).target =
      DbfFile.written 7 [[1]] ∧
    (saveChanges ⟨true, some 1⟩ false [[1], [2]] 7 ⟨.original 0, none, true⟩).modified =
      true := by
  decide

/-- C3 (amended): `save_changes` re-creates the target file in place, so a
write failure at row `k` leaves a partially written file — the new schema
with the first `k` rows — at the target path; the original content survives
only in the backup, and the modified flag stays set. -/
theorem claim_C3 (st : SaveState) (rows : List (List Nat)) (schema k : Nat)
    (hmod : st.modified = true) (hk : k < rows.length) :
    (saveChanges ⟨true, some k⟩ false rows schema st).target =
      DbfFile.written schema (rows.take k) ∧
    (saveChanges ⟨true, some k⟩ false rows schema st).backup = some st.target ∧
    (saveChanges ⟨true, some k⟩ false rows schema st).modified = true := by
  refine ⟨?_, ?_, ?_⟩ <;>
    simp [saveChanges, backupStep, hmod, writeLoop_take rows k hk]

theorem claim_C3_witness :
    (⟨DbfFile.original 0, none, true⟩ : SaveState).modified = true ∧
    1 < ([[1], [2]] : List (List Nat)).length ∧
    ((saveChanges ⟨true, some 1⟩ false [[1], [2]] 7
        ⟨DbfFile.original 0, none, true⟩).target =
      DbfFile.written 7 (([[1], [2]] : List (List Nat)).take 1) ∧
    (saveChanges ⟨true, some 1⟩ false [[1], [2]] 7
        ⟨DbfFile.original 0, none, true⟩).backup =
      some (⟨DbfFile.original 0, none, true⟩ : SaveState).target ∧
    (saveChanges ⟨true, some 1⟩ false [[1], [2]] 7
        ⟨DbfFile.original 0, none, true⟩).modified = true) :=
  ⟨rfl, by decide,
    claim_C3 ⟨DbfFile.original 0, none, true⟩ [[1], [2]] 7 1 rfl (by decide)⟩

/-- C4 (counterexample to the claim as stated): when the backup copy fails,
`backup_file` swallows the exception (it only shows an error box), so
`save_changes` does *not* abort: the target file is re-created and every row
is written with no backup present — refuting "aborts before any destructive
work". -/
theorem claim_C4_counterexample :
    (saveChanges ⟨false, none⟩ false [[1]] 7 ⟨.original 0, none, true⟩).target =
      DbfFile.written 7 [[1]] ∧
    (saveChanges ⟨false, none⟩ false [[1]] 7 ⟨.original 0, none, true⟩).backup =
      none ∧
    (saveChanges ⟨false, none⟩ false [[1]] 7 ⟨.original 0, none, true⟩).modified =
      false := by
  decide

/-- C4 (amended): a backup failure is caught inside `backup_file` and does
not propagate: the save proceeds exactly as if the backup had succeeded —
the target is re-created with the derived schema, all rows are written and
the modified flag is cleared — with the backup left as it was. -/
theorem claim_C4 (st : SaveState) (rows : List (List Nat)) (schema : Nat)
    (hmod : st.modified = true) :
    (saveChanges ⟨false, none⟩ false rows schema st).backup = st.backup ∧
    (saveChanges ⟨false, none⟩ false rows schema st).target =
      DbfFile.written schema rows ∧
    (saveChanges ⟨false, none⟩ false rows schema st).modified = false := by
  refine ⟨?_, ?_, ?_⟩ <;>
    simp [saveChanges, backupStep, hmod, writeLoop_none]

theorem claim_C4_witness :
    (⟨DbfFile.original 0, some (DbfFile.original 9), true⟩ : SaveState).modified = true ∧
    ((saveChanges ⟨false, none⟩ false [[1]] 7
        ⟨DbfFile.original 0, some (DbfFile.original 9), true⟩).backup =
      (⟨DbfFile.original 0, some (DbfFile.original 9), true⟩ : SaveState).backup ∧
    (saveChanges ⟨false, none⟩ false [[1]] 7
        ⟨DbfFile.original 0, some (DbfFile.original 9), true⟩).target =
      DbfFile.written 7 [[1]] ∧
    (saveChanges ⟨false, none⟩ false [[1]] 7
        ⟨DbfFile.original 0, some (DbfFile.original 9), true⟩).modified = false) :=
  ⟨rfl, claim_C4 ⟨DbfFile.original 0, some (DbfFile.original 9), true⟩ [[1]] 7 rfl⟩

/-! ### Find/replace lemmas and claims C9, C10 -/

/-- `replace_current` on a valid cursor: the current match's cell is
rewritten on the base dataframe, the tab is marked modified, the consumed
match is removed and the cursor is reduced modulo the shorter list (or set
to -1 when the list empties). -/
theorem replaceCurrent_valid (ft rt : List Char) (cs : Bool) (st : FRState)
    (hro : st.readOnly = false) (i : Nat) (hi : st.cursor = (i : Int))
    (hlt : i < st.matchList.length) (m : Nat × Nat × List Char)
    (hm : st.matchList[i]? = some m) :
    (replaceCurrent ft rt cs st).1 =
      { st with
        table := updateCell st.table m.1 m.2.1
          (if cs then pyReplace m.2.2 ft rt else pyReplaceCI m.2.2 ft rt),
        matchList := st.matchList.eraseIdx i,
        cursor := if (st.matchList.eraseIdx i).isEmpty then -1
          else (i : Int) % ((st.matchList.eraseIdx i).length : Int),
        dirty := true } := by
  have hne : st.matchList.isEmpty = false := by
    cases hml : st.matchList with
    | nil => rw [hml] at hlt; simp at hlt
    | cons a l => rfl
  have hdec : ¬((i : Int) < 0) := by omega
  have htn : ((i : Int)).toNat = i := Int.toNat_natCast i
  unfold replaceCurrent
  rw [hi]
  rw [if_neg (by simp [hne, hdec])]
  rw [if_neg (by simp [hro])]
  rw [htn, hm]

/-- C9 (counterexample to the claim as stated): with table `[["foo"]]`,
searching `"foo"` (exact, case-sensitive), consuming the only match with
`replaceCurrent("foo")` leaves the cursor at -1 — but the next `findNext`
re-runs the search over the (unchanged) table and *reports a match*, not "no
matches": the replacement text reintroduced the find text. -/
theorem claim_C9_counterexample :
    ((replaceCurrent "foo".toList "foo".toList true
        ((findNext "foo".toList true false
          ⟨[["foo".toList]], none, false, false, [], -1, none⟩).1)).1).cursor = -1 ∧
    ((replaceCurrent "foo".toList "foo".toList true
        ((findNext "foo".toList true false
          ⟨[["foo".toList]], none, false, false, [], -1, none⟩).1)).1).matchList = [] ∧
    (findNext "foo".toList true false
        ((replaceCurrent "foo".toList "foo".toList true
          ((findNext "foo".toList true false
            ⟨[["foo".toList]], none, false, false, [], -1, none⟩).1)).1)).2 ≠
      FRMsg.noMatches := by
  decide

/-- C9 (amended): with a non-empty match list and the cursor at a valid
match, `replaceCurrent` rewrites only the current match's cell (every
occurrence of the find text within that cell, from the snapshot value),
marks the table dirty, removes the consumed match and sets the cursor to the
old index modulo the new, shorter length (or -1 when the list empties);
`replaceCurrent` with cursor -1 or an empty match list fails without
mutating anything; and after all matches are consumed `findNext` reports no
matches *provided the find text no longer occurs in the table under the
search options* (the replacement text may reintroduce it). -/
theorem claim_C9 (ft rt : List Char) (cs pm : Bool) (st : FRState)
    (hro : st.readOnly = false)
    (i : Nat) (hi : st.cursor = (i : Int)) (hlt : i < st.matchList.length) :
    (∀ m, st.matchList[i]? = some m →
      (replaceCurrent ft rt cs st).1 =
        { st with
          table := updateCell st.table m.1 m.2.1
            (if cs then pyReplace m.2.2 ft rt else pyReplaceCI m.2.2 ft rt),
          matchList := st.matchList.eraseIdx i,
          cursor := if (st.matchList.eraseIdx i).isEmpty then -1
            else (i : Int) % ((st.matchList.eraseIdx i).length : Int),
          dirty := true }) ∧
    (∀ st' : FRState, st'.matchList = [] ∨ st'.cursor < 0 →
      replaceCurrent ft rt cs st' = (st', .findFirst)) ∧
    (∀ st' : FRState, st'.matchList = [] →
      searchData ft cs pm (activeData st') = [] → ft ≠ [] →
      (findNext ft cs pm st').2 = .noMatches) := by
  refine ⟨fun m hm => replaceCurrent_valid ft rt cs st hro i hi hlt m hm, ?_, ?_⟩
  · intro st' h
    unfold replaceCurrent
    rcases h with hml | hcur
    · rw [if_pos (by simp [hml])]
    · rw [if_pos (by simp [hcur])]
  · intro st' hml hsearch hft
    unfold findNext
    rw [if_neg hft]
    simp only [hml, List.isEmpty_nil, Bool.true_or, if_true, hsearch]

theorem claim_C9_witness :
    (⟨[["foo".toList, "bar".toList]], none, false, false,
        [(0, 0, "foo".toList)], 0, some "foo".toList⟩ : FRState).readOnly = false ∧
    (⟨[["foo".toList, "bar".toList]], none, false, false,
        [(0, 0, "foo".toList)], 0, some "foo".toList⟩ : FRState).cursor = ((0 : Nat) : Int) ∧
    0 < (⟨[["foo".toList, "bar".toList]], none, false, false,
        [(0, 0, "foo".toList)], 0, some "foo".toList⟩ : FRState).matchList.length ∧
    ((∀ m, (⟨[["foo".toList, "bar".toList]], none, false, false,
        [(0, 0, "foo".toList)], 0, some "foo".toList⟩ : FRState).matchList[(0 : Nat)]? = some m →
      (replaceCurrent "foo".toList "baz".toList true
        ⟨[["foo".toList, "bar".toList]], none, false, false,
          [(0, 0, "foo".toList)], 0, some "foo".toList⟩).1 =
        { (⟨[["foo".toList, "bar".toList]], none, false, false,
            [(0, 0, "foo".toList)], 0, some "foo".toList⟩ : FRState) with
          table := updateCell [["foo".toList, "bar".toList]] m.1 m.2.1
            (if true then pyReplace m.2.2 "foo".toList "baz".toList
             else pyReplaceCI m.2.2 "foo".toList "baz".toList),
          matchList := ([(0, 0, "foo".toList)] : List (Nat × Nat × List Char)).eraseIdx 0,
          cursor := if (([(0, 0, "foo".toList)] : List (Nat × Nat × List Char)).eraseIdx 0).isEmpty
            then -1
            else ((0 : Nat) : Int) %
              (((([(0, 0, "foo".toList)] : List (Nat × Nat × List Char)).eraseIdx 0).length : Int)),
          dirty := true }) ∧
    (∀ st' : FRState, st'.matchList = [] ∨ st'.cursor < 0 →
      replaceCurrent "foo".toList "baz".toList true st' = (st', .findFirst)) ∧
    (∀ st' : FRState, st'.matchList = [] →
      searchData "foo".toList true false (activeData st') = [] → "foo".toList ≠ [] →
      (findNext "foo".toList true false st').2 = .noMatches)) :=
  ⟨rfl, rfl, by decide,
    claim_C9 "foo".toList "baz".toList true false
      ⟨[["foo".toList, "bar".toList]], none, false, false,
        [(0, 0, "foo".toList)], 0, some "foo".toList⟩ rfl 0 rfl (by decide)⟩

/-! ### Claim C10 -/

/-- C10 (confirmed): when a filtered view is active, `_search_data`
enumerates the filtered view's cells, while `replace_current` and
`replace_all` write each replacement to the *base* dataframe at the row
index recorded from the filtered view; the filtered view itself is never
modified by the replacement. -/
theorem claim_C10 (ft rt : List Char) (cs pm : Bool) (st : FRState)
    (fdf : List (List (List Char)))
    (hf : st.filtered = some fdf)
    (hro : st.readOnly = false)
    (i : Nat) (hi : st.cursor = (i : Int)) (hlt : i < st.matchList.length) :
    activeData st = fdf ∧
    (∀ m, st.matchList[i]? = some m →
      (replaceCurrent ft rt cs st).1.table =
        updateCell st.table m.1 m.2.1
          (if cs then pyReplace m.2.2 ft rt else pyReplaceCI m.2.2 ft rt) ∧
      (replaceCurrent ft rt cs st).1.filtered = st.filtered) ∧
    (∀ confirm, (replaceAllOp ft rt cs pm confirm st).1.filtered = st.filtered) := by
  refine ⟨by unfold activeData; rw [hf], ?_, ?_⟩
  · intro m hm
    rw [replaceCurrent_valid ft rt cs st hro i hi hlt m hm]
    exact ⟨rfl, rfl⟩
  · intro confirm
    unfold replaceAllOp
    split
    · rfl
    · split
      · rfl
      · dsimp only
        split
        · rfl
        · split
          · rfl
          · rfl

theorem claim_C10_witness :
    (⟨[["foo".toList]], some [["foo".toList]], false, false,
        [(0, 0, "foo".toList)], 0, some "foo".toList⟩ : FRState).filtered =
      some [["foo".toList]] ∧
    (⟨[["foo".toList]], some [["foo".toList]], false, false,
        [(0, 0, "foo".toList)], 0, some "foo".toList⟩ : FRState).readOnly = false ∧
    (⟨[["foo".toList]], some [["foo".toList]], false, false,
        [(0, 0, "foo".toList)], 0, some "foo".toList⟩ : FRState).cursor = ((0 : Nat) : Int) ∧
    0 < (⟨[["foo".toList]], some [["foo".toList]], false, false,
        [(0, 0, "foo".toList)], 0, some "foo".toList⟩ : FRState).matchList.length ∧
    (activeData (⟨[["foo".toList]], some [["foo".toList]], false, false,
        [(0, 0, "foo".toList)], 0, some "foo".toList⟩ : FRState) = [["foo".toList]] ∧
    (∀ m, (⟨[["foo".toList]], some [["foo".toList]], false, false,
        [(0, 0, "foo".toList)], 0, some "foo".toList⟩ : FRState).matchList[(0 : Nat)]? = some m →
      (replaceCurrent "foo".toList "baz".toList true
        ⟨[["foo".toList]], some [["foo".toList]], false, false,
          [(0, 0, "foo".toList)], 0, some "foo".toList⟩).1.table =
        updateCell [["foo".toList]] m.1 m.2.1
          (if true then pyReplace m.2.2 "foo".toList "baz".toList
           else pyReplaceCI m.2.2 "foo".toList "baz".toList) ∧
      (replaceCurrent "foo".toList "baz".toList true
        ⟨[["foo".toList]], some [["foo".toList]], false, false,
          [(0, 0, "foo".toList)], 0, some "foo".toList⟩).1.filtered =
        (⟨[["foo".toList]], some [["foo".toList]], false, false,
          [(0, 0, "foo".toList)], 0, some "foo".toList⟩ : FRState).filtered) ∧
    (∀ confirm, (replaceAllOp "foo".toList "baz".toList true false confirm
        ⟨[["foo".toList]], some [["foo".toList]], false, false,
          [(0, 0, "foo".toList)], 0, some "foo".toList⟩).1.filtered =
      (⟨[["foo".toList]], some [["foo".toList]], false, false,
        [(0, 0, "foo".toList)], 0, some "foo".toList⟩ : FRState).filtered)) :=
  ⟨rfl, rfl, rfl, by decide,
    claim_C10 "foo".toList "baz".toList true false
      ⟨[["foo".toList]], some [["foo".toList]], false, false,
        [(0, 0, "foo".toList)], 0, some "foo".toList⟩ [["foo".toList]]
      rfl rfl 0 rfl (by decide)⟩

end DbfCommander
